import Mathlib

/-!
Shallow embedding of the quantity-conversion and diagnostic-text-scanning core
of `resource-gather.py` (functions `convert_memory_to_bytes`,
`convert_memory_to_gib`, `convert_memory_to_mib`, `format_cpu_cores`,
`format_cpu_m`, and the scanning part of `get_node_details`).

Modelling conventions:
* Python floats are modelled exactly, as unreduced integer fractions (`Frac`);
  the special values produced by `float(str)` (`inf`, `-inf`, `nan`) get their
  own constructors.  Binary rounding error of IEEE doubles is not modelled, and
  the sign of a negative zero is dropped.
* A Python function that can raise an uncaught exception is embedded as an
  `Option`-valued function; `none` is the raised exception.
* Strings are ASCII; `str.strip`, `str.split`, `str.splitlines`, `float(str)`
  and the two regular expressions of the source are implemented directly over
  `List Char`.
* The `numfmt` delegation inside `convert_memory_to_bytes` is external I/O and
  is out of scope (the spec requires both paths to agree and directs a
  reimplementation to keep only the manual parser); the manual-parse path
  (source lines 54-70) is embedded.
* The JSON-driven parts of `get_node_details` (node capacity lookup) and all
  subprocess plumbing are out of scope per the spec; the scanner is embedded
  as a function of the diagnostic text.
-/

namespace ResourceGather

/-- An exact numeric value carried as an unreduced fraction: the value is
`n / d`.  Every fraction built by the embedding has a positive denominator. -/
structure Frac where
  n : Int
  d : Nat
deriving DecidableEq

/-- The rational value of a fraction. -/
def Frac.val (f : Frac) : ℚ := (f.n : ℚ) / (f.d : ℚ)

/-- Negation. -/
def Frac.negF (f : Frac) : Frac := ⟨-f.n, f.d⟩

/-- Multiplication by a natural constant. -/
def Frac.mulNat (f : Frac) (m : Nat) : Frac := ⟨f.n * m, f.d⟩

/-- Division by a positive natural constant. -/
def Frac.divNat (f : Frac) (m : Nat) : Frac := ⟨f.n, f.d * m⟩

/-- Floor of a fraction with positive denominator (Euclidean division). -/
def Frac.floorF (f : Frac) : Int := f.n / (f.d : Int)

/-- Python `int()` applied to a fraction: truncation toward zero. -/
def truncF (f : Frac) : Int := f.n.tdiv (f.d : Int)

/-- Round half to even, the rounding used by Python `round()` and `"%.nf"`
formatting, on a fraction with positive denominator. -/
def rheF (f : Frac) : Int :=
  let fl := f.floorF
  let r := f.n - fl * (f.d : Int)
  if 2 * r < (f.d : Int) then fl
  else if (f.d : Int) < 2 * r then fl + 1
  else if fl % 2 = 0 then fl else fl + 1

/-- The ten ASCII decimal digit characters. -/
def decDigits : List Char := ['0', '1', '2', '3', '4', '5', '6', '7', '8', '9']

/-- Big-endian decimal digit characters of `n`, with recursion fuel. -/
def natDigitsAux : Nat → Nat → List Char
  | 0, _ => []
  | fuel + 1, n => if n = 0 then [] else natDigitsAux fuel (n / 10) ++ [Nat.digitChar (n % 10)]

/-- Decimal digit characters of a natural number, as Python prints it. -/
def natDecChars (n : Nat) : List Char := if n = 0 then ['0'] else natDigitsAux (n + 1) n

/-- Decimal string of a natural number. -/
def natDecStr (n : Nat) : String := String.mk (natDecChars n)

/-- Decimal string of an integer (Python `str` of an int). -/
def intDecStr (k : Int) : String := if k < 0 then "-" ++ natDecStr k.natAbs else natDecStr k.toNat

/-- Numeric value of a big-endian list of decimal digit characters. -/
def digitsValL (l : List Char) : Nat := l.foldl (fun a c => 10 * a + (c.toNat - 48)) 0

/-- Exactly `d` decimal digit characters of `b`, most significant first, zero padded. -/
def padDigits : Nat → Nat → List Char
  | 0, _ => []
  | d + 1, b => padDigits d (b / 10) ++ [Nat.digitChar (b % 10)]

/-- Python `f"{x:.2f}"` on an exact fraction. -/
def fmt2f (f : Frac) : String :=
  let k := rheF (f.mulNat 100)
  if k < 0 then "-" ++ String.mk (natDecChars (k.natAbs / 100) ++ '.' :: padDigits 2 (k.natAbs % 100))
  else String.mk (natDecChars (k.toNat / 100) ++ '.' :: padDigits 2 (k.toNat % 100))

/-- Python `f"{x:.0f}"` on an exact fraction. -/
def fmt0f (f : Frac) : String := intDecStr (rheF f)

/-- Value of a Python float: an exact fraction, an infinity, or NaN. -/
inductive FloatVal where
  | fin (f : Frac)
  | inf
  | ninf
  | nan
deriving DecidableEq

/-- Negation of a float value (applied for a leading minus sign). -/
def FloatVal.neg : FloatVal → FloatVal
  | .fin f => .fin f.negF
  | .inf => .ninf
  | .ninf => .inf
  | .nan => .nan

/-- Division of a float value by a positive natural constant. -/
def FloatVal.divPos : FloatVal → Nat → FloatVal
  | .fin f, c => .fin (f.divNat c)
  | .inf, _ => .inf
  | .ninf, _ => .ninf
  | .nan, _ => .nan

/-- Python `f"{x:.2f}"` on a float value. -/
def fmtF2 : FloatVal → String
  | .fin f => fmt2f f
  | .inf => "inf"
  | .ninf => "-inf"
  | .nan => "nan"

/-- Characters matched by the regex class `[0-9.]`. -/
def isNumDotChar (c : Char) : Bool := c.isDigit || c == '.'

/-- Python `str.strip()` on a character list. -/
def stripList (l : List Char) : List Char :=
  ((l.dropWhile Char.isWhitespace).reverse.dropWhile Char.isWhitespace).reverse

/-- ASCII lowercasing of a character list. -/
def lowerList (l : List Char) : List Char := l.map Char.toLower

/-- Tail of a Python float digit group: digits with single underscores between digits. -/
def validDigitTail : List Char → Bool
  | [] => true
  | [c] => !(c == '_') && c.isDigit
  | c :: d :: rest =>
    if c == '_' then d.isDigit && validDigitTail rest
    else c.isDigit && validDigitTail (d :: rest)

/-- A Python float digit group: nonempty, starts with a digit. -/
def validDigitPart : List Char → Bool
  | [] => false
  | c :: rest => c.isDigit && validDigitTail rest

/-- The digits of a digit group with the underscores removed. -/
def digitPartChars (l : List Char) : List Char := l.filter (fun c => !(c == '_'))

/-- Numeric value of a digit group. -/
def digitPartVal (l : List Char) : Nat := digitsValL (digitPartChars l)

/-- Number of digits of a digit group. -/
def digitPartLen (l : List Char) : Nat := (digitPartChars l).length

/-- Split at the first `'.'`: the part before and the part after, if any dot occurs. -/
def breakAtDot : List Char → Option (List Char × List Char)
  | [] => none
  | c :: rest =>
    if c == '.' then some ([], rest)
    else (breakAtDot rest).map (fun p => (c :: p.1, p.2))

/-- Split at the first `'e'` or `'E'`. -/
def breakAtExp : List Char → Option (List Char × List Char)
  | [] => none
  | c :: rest =>
    if c == 'e' || c == 'E' then some ([], rest)
    else (breakAtExp rest).map (fun p => (c :: p.1, p.2))

/-- Value of the mantissa of a Python float literal (no sign, no exponent): the
integer part plus the fractional digits over the matching power of ten. -/
def mantissaVal (l : List Char) : Option Frac :=
  match breakAtDot l with
  | none => if validDigitPart l then some ⟨(digitPartVal l : Int), 1⟩ else none
  | some (ip, fp) =>
    if ip.isEmpty && fp.isEmpty then none
    else if (ip.isEmpty || validDigitPart ip) && (fp.isEmpty || validDigitPart fp) then
      some ⟨(digitPartVal ip : Int) * 10 ^ digitPartLen fp + (digitPartVal fp : Int),
        10 ^ digitPartLen fp⟩
    else none

/-- Value of the exponent part of a Python float literal. -/
def expVal (l : List Char) : Option Int :=
  match l with
  | [] => none
  | c :: r =>
    if c == '+' then (if validDigitPart r then some (digitPartVal r : Int) else none)
    else if c == '-' then (if validDigitPart r then some (-(digitPartVal r : Int)) else none)
    else if validDigitPart (c :: r) then some (digitPartVal (c :: r) : Int) else none

/-- Apply a decimal exponent to a fraction. -/
def applyExp (f : Frac) (e : Int) : Frac :=
  if 0 ≤ e then f.mulNat (10 ^ e.toNat) else f.divNat (10 ^ (-e).toNat)

/-- Lowercased spelling of infinity accepted by `float`. -/
def infChars : List Char := ['i', 'n', 'f']

/-- Lowercased long spelling of infinity accepted by `float`. -/
def infinityChars : List Char := ['i', 'n', 'f', 'i', 'n', 'i', 't', 'y']

/-- Lowercased spelling of NaN accepted by `float`. -/
def nanChars : List Char := ['n', 'a', 'n']

/-- Unsigned payload of `float(str)`: keyword values or a numeric literal. -/
def pyFloatMag (l : List Char) : Option FloatVal :=
  let low := lowerList l
  if low == infChars || low == infinityChars then some .inf
  else if low == nanChars then some .nan
  else
    match breakAtExp l with
    | none => (mantissaVal l).map .fin
    | some (m, e) =>
      match mantissaVal m, expVal e with
      | some mv, some ev => some (.fin (applyExp mv ev))
      | _, _ => none

/-- Model of Python `float(str)` on ASCII input; `none` is `ValueError`. -/
def pyFloat (s : String) : Option FloatVal :=
  match stripList s.toList with
  | [] => none
  | c :: rest =>
    if c == '+' then pyFloatMag rest
    else if c == '-' then (pyFloatMag rest).map FloatVal.neg
    else pyFloatMag (c :: rest)

/-- The optional unit group of the regex `([KMGTPEZY]i?B?)?` (matched greedily). -/
def unitOk : List Char → Bool
  | [] => true
  | c :: rest =>
    (c == 'K' || c == 'M' || c == 'G' || c == 'T' ||
      c == 'P' || c == 'E' || c == 'Z' || c == 'Y')
    && (rest == ([] : List Char) || rest == ['i'] || rest == ['B'] || rest == ['i', 'B'])

/-- Model of `re.match(r"^([0-9.]+)([KMGTPEZY]i?B?)?$", s)`: numeric and unit groups. -/
def memRegexMatch (s : String) : Option (String × String) :=
  let cs := s.toList
  let np := cs.takeWhile isNumDotChar
  let us := cs.dropWhile isNumDotChar
  if np.isEmpty then none
  else if unitOk us then some (String.mk np, String.mk us) else none

/-- Python `str.lower()`. -/
def lowerStr (s : String) : String := String.mk (lowerList s.toList)

/-- The unit dispatch of `convert_memory_to_bytes` (source lines 61-70); the unit
is already lowercased. -/
def memUnitBytes (num : Frac) (unit : String) : Int :=
  if unit == "ki" || unit == "k" || unit == "kib" then truncF (num.mulNat 1024)
  else if unit == "mi" || unit == "m" || unit == "mib" then truncF (num.mulNat (1024 * 1024))
  else if unit == "gi" || unit == "g" || unit == "gib" then
    truncF (num.mulNat (1024 * 1024 * 1024))
  else if unit == "ti" || unit == "t" || unit == "tib" then
    truncF (num.mulNat (1024 * 1024 * 1024 * 1024))
  else truncF num

/-- `convert_memory_to_bytes`, manual-parse path (source lines 41-70 without the
`numfmt` delegation); `none` models the uncaught `ValueError` of `float()` (and
the `OverflowError` of `int()` on a non-finite value). -/
def convert_memory_to_bytes (v : String) : Option Int :=
  if v == "" then some 0
  else
    match memRegexMatch v with
    | none => some 0
    | some (numStr, unitStr) =>
      match pyFloat numStr with
      | some (.fin num) => some (memUnitBytes num (lowerStr unitStr))
      | some _ => none
      | none => none

/-- `convert_memory_to_gib` (source lines 72-77). -/
def convert_memory_to_gib (v : String) : Option String := do
  let b ← convert_memory_to_bytes v
  if b ≤ 0 then pure ""
  else pure (fmt2f ⟨b, 1024 * 1024 * 1024⟩ ++ "Gi")

/-- `convert_memory_to_mib` (source lines 79-84). -/
def convert_memory_to_mib (v : String) : Option String := do
  let b ← convert_memory_to_bytes v
  if b ≤ 0 then pure ""
  else pure (fmt0f ⟨b, 1024 * 1024⟩ ++ "Mi")

/-- Python `s.endswith(c)` for a single character. -/
def lastIs (s : String) (c : Char) : Bool :=
  match s.toList.getLast? with
  | some d => d == c
  | none => false

/-- Python `s[:-1]`. -/
def dropLastStr (s : String) : String := String.mk s.toList.dropLast

/-- `format_cpu_cores` (source lines 86-98); only the non-`m` branch guards the
`float()` call with `except ValueError`, so a failed parse in the `m` branch is
an uncaught exception (`none`). -/
def format_cpu_cores (value : String) : Option String :=
  if value == "" then some ""
  else if lastIs value 'm' then
    match pyFloat (dropLastStr value) with
    | none => none
    | some f => some (fmtF2 (f.divPos 1000) ++ "cores")
  else
    match pyFloat value with
    | none => some value
    | some f => some (fmtF2 f ++ "cores")

/-- `format_cpu_m` (source lines 100-111); `round(nan)` raises `ValueError`,
which the source catches (pass-through), while `round(inf)` raises
`OverflowError`, which it does not catch. -/
def format_cpu_m (value : String) : Option String :=
  if value == "" then some ""
  else if lastIs value 'm' then some value
  else
    match pyFloat value with
    | none => some value
    | some (.fin f) => some (intDecStr (rheF (f.mulNat 1000)) ++ "m")
    | some .nan => some value
    | some .inf => none
    | some .ninf => none

/-- Python `str.splitlines()` restricted to `'\n'` terminators (the only line
terminator occurring in the inputs of interest): a trailing terminator does not
produce a final empty line. -/
def splitlinesAux : List Char → List Char → List String
  | [], cur => if cur.isEmpty then [] else [String.mk cur.reverse]
  | c :: rest, cur =>
    if c == '\n' then String.mk cur.reverse :: splitlinesAux rest []
    else splitlinesAux rest (c :: cur)

/-- Python `str.splitlines()`. -/
def splitlines (s : String) : List String := splitlinesAux s.toList []

/-- Whether the first list is an initial segment of the second. -/
def listStartsWith : List Char → List Char → Bool
  | [], _ => true
  | _ :: _, [] => false
  | p :: ps, c :: cs => p == c && listStartsWith ps cs

/-- Whether `pat` occurs contiguously inside the list. -/
def hasSubAux (pat : List Char) : List Char → Bool
  | [] => listStartsWith pat []
  | c :: rest => listStartsWith pat (c :: rest) || hasSubAux pat rest

/-- Python `pat in s` substring containment. -/
def hasSub (s pat : String) : Bool := hasSubAux pat.toList s.toList

/-- Python `str.strip()`. -/
def pyStrip (s : String) : String := String.mk (stripList s.toList)

/-- Helper for `pySplit`: current partial token is accumulated reversed. -/
def pySplitAux : List Char → List Char → List String
  | [], cur => if cur.isEmpty then [] else [String.mk cur.reverse]
  | c :: rest, cur =>
    if c.isWhitespace then
      if cur.isEmpty then pySplitAux rest []
      else String.mk cur.reverse :: pySplitAux rest []
    else pySplitAux rest (c :: cur)

/-- Python `str.split()` with no arguments: whitespace runs, no empty tokens. -/
def pySplit (s : String) : List String := pySplitAux s.toList []

/-- The `Allocated resources:` section header. -/
def allocHdr : String := "Allocated resources:"

/-- The `Events:` header that closes the allocated-resources section. -/
def eventsHdr : String := "Events:"

/-- The `Non-terminated Pods:` section header. -/
def podsHdr : String := "Non-terminated Pods:"

/-- First excluded line inside the allocated-resources section (source line 260). -/
def disclaimerLit : String := "Total limits may exceed allocatable resources"

/-- Second excluded line inside the allocated-resources section (source line 260). -/
def colHdrLit : String := "Resource           Requests         Limits"

/-- One step of the allocated-resources block collection (source lines 254-261):
state is the `in_block` flag and the collected stripped lines. -/
def allocStep (st : Bool × List String) (line : String) : Bool × List String :=
  if hasSub line allocHdr then (true, st.2)
  else
    let inb := if hasSub line eventsHdr then false else st.1
    if inb && !hasSub line disclaimerLit && !hasSub line colHdrLit then
      (inb, st.2 ++ [pyStrip line])
    else (inb, st.2)

/-- The `allocated_resources_block` list built by `get_node_details`. -/
def allocatedBlock (lines : List String) : List String :=
  (lines.foldl allocStep (false, [])).2

/-- The four aggregate fields extracted from the allocated-resources block. -/
structure AllocFields where
  cpu_req : String
  cpu_limit : String
  mem_req : String
  mem_limit : String
deriving DecidableEq

/-- One line of the aggregate-field extraction (source lines 263-270): a line
whose tokens contain `"cpu"` sets the CPU pair, else one containing `"memory"`
sets the memory pair. -/
def allocLineStep (f : AllocFields) (line : String) : AllocFields :=
  let parts := pySplit line
  if parts.contains "cpu" then
    { f with cpu_req := parts.getD 1 "", cpu_limit := parts.getD 3 "" }
  else if parts.contains "memory" then
    { f with mem_req := parts.getD 1 "", mem_limit := parts.getD 3 "" }
  else f

/-- Aggregate fields of an allocated-resources block (initially all empty). -/
def allocFields (block : List String) : AllocFields :=
  block.foldl allocLineStep ⟨"", "", "", ""⟩

/-- Whitespace skip for the pod-count pattern (`\s*`). -/
def dropRunWs (l : List Char) : List Char := l.dropWhile Char.isWhitespace

/-- Consume a literal prefix, returning the rest on success. -/
def matchLit : List Char → List Char → Option (List Char)
  | [], cs => some cs
  | _ :: _, [] => none
  | p :: ps, c :: cs => if p == c then matchLit ps cs else none

/-- Match `Non-terminated Pods:\s*\(([0-9]+)\s*in\s*total\)` at the head of the
list, returning the digit group. -/
def matchPodCountAt (cs : List Char) : Option (List Char) := do
  let r1 ← matchLit podsHdr.toList cs
  let r2 ← matchLit ['('] (dropRunWs r1)
  let ds := r2.takeWhile Char.isDigit
  if ds.isEmpty then none
  else
    let r3 ← matchLit ['i', 'n'] (dropRunWs (r2.dropWhile Char.isDigit))
    let _ ← matchLit ['t', 'o', 't', 'a', 'l', ')'] (dropRunWs r3)
    some ds

/-- Leftmost match of the pod-count pattern anywhere in the text. -/
def searchPodCountAux : List Char → Option (List Char)
  | [] => none
  | c :: rest =>
    match matchPodCountAt (c :: rest) with
    | some ds => some ds
    | none => searchPodCountAux rest

/-- The two `re.search` calls of source lines 273-278: pod count, default `"0"`. -/
def numPodsOf (txt : String) : String :=
  match searchPodCountAux txt.toList with
  | some ds => String.mk ds
  | none => "0"

/-- State of the non-terminated-pods block collection: `in_pods_block`, the
`lines_skipped` counter and the collected stripped lines. -/
structure PodsSt where
  inb : Bool
  skip : Nat
  acc : List String
deriving DecidableEq

/-- One step of the pods block collection (source lines 284-295): the header
resets the skip counter, an `Allocated resources:` line closes the block, and
the first two in-block lines after the header are skipped. -/
def podsStep (st : PodsSt) (line : String) : PodsSt :=
  if hasSub line podsHdr then ⟨true, 0, st.acc⟩
  else
    let inb := if hasSub line allocHdr then false else st.inb
    if inb then
      if st.skip < 2 then ⟨inb, st.skip + 1, st.acc⟩
      else ⟨inb, st.skip, st.acc ++ [pyStrip line]⟩
    else ⟨inb, st.skip, st.acc⟩

/-- The `non_terminated_pods_block` list built by `get_node_details`. -/
def podsBlock (lines : List String) : List String :=
  (lines.foldl podsStep ⟨false, 0, []⟩).acc

/-- Format one pod-detail row from the whitespace tokens of a data line
(source lines 302-317); `none` is a converter exception. -/
def podRowFmt (parts : List String) : Option (List String) := do
  let cpuReq ← format_cpu_m (parts.getD 2 "")
  let cpuLim ← format_cpu_m (parts.getD 4 "")
  let memReq ← convert_memory_to_mib (parts.getD 6 "")
  let memLim ← convert_memory_to_mib (parts.getD 8 "")
  pure [parts.getD 0 "", parts.getD 1 "", cpuReq, cpuLim, memReq, memLim]

/-- The pod-detail loop of source lines 297-317 over the collected block. -/
def podDetailsAux : List String → List (List String) → Option (List (List String))
  | [], acc => some acc
  | l :: rest, acc =>
    if l == "" then podDetailsAux rest acc
    else
      let parts := pySplit l
      if 9 ≤ parts.length then do
        let r ← podRowFmt parts
        podDetailsAux rest (acc ++ [r])
      else podDetailsAux rest acc

/-- The `pod_details_data` list of `get_node_details`. -/
def podDetails (block : List String) : Option (List (List String)) :=
  podDetailsAux block []

/-- Scanner output of `get_node_details`: the four formatted aggregate fields,
the pod count and the pod-detail rows.  (The JSON-derived capacity fields of the
summary row are external input and out of scope.) -/
structure NodeOut where
  cpu_req : String
  cpu_limit : String
  mem_req : String
  mem_limit : String
  num_pods : String
  pods : List (List String)
deriving DecidableEq

/-- The scanning part of `get_node_details` (source lines 246-331) as a function
of the diagnostic text; `none` models an uncaught converter exception.  The
formatting order follows the source: pod rows are formatted during the scan,
then the memory aggregates, then the CPU aggregates. -/
def get_node_details (txt : String) : Option NodeOut := do
  let lines := splitlines txt
  let f := allocFields (allocatedBlock lines)
  let np := numPodsOf txt
  let pods ← podDetails (podsBlock lines)
  let memReq ← convert_memory_to_gib f.mem_req
  let memLim ← convert_memory_to_gib f.mem_limit
  let cpuReq ← format_cpu_cores f.cpu_req
  let cpuLim ← format_cpu_cores f.cpu_limit
  pure ⟨cpuReq, cpuLim, memReq, memLim, np, pods⟩

/-- Acceptance test of one (stripped) pods-block line, as the spec states it: a
non-blank line is accepted exactly when it has at least 9 whitespace tokens, in
which case its token list is kept. -/
def rawAccept (l : String) : Option (List String) :=
  if l == "" then none
  else if 9 ≤ (pySplit l).length then some (pySplit l) else none

/-! ### Character facts -/

/-- The characters the regex class `[0-9.]` accepts. -/
def numDotSet : List Char := '.' :: decDigits

theorem digitChar_mem_decDigits {d : Nat} (h : d < 10) : Nat.digitChar d ∈ decDigits := by
  interval_cases d <;> decide

theorem digitChar_toNat {d : Nat} (h : d < 10) : (Nat.digitChar d).toNat - 48 = d := by
  interval_cases d <;> decide

theorem numDot_props {c : Char} (h : c ∈ numDotSet) :
    c ≠ '_' ∧ c ≠ 'e' ∧ c ≠ 'E' ∧ c.isWhitespace = false ∧ isNumDotChar c = true ∧
      c ≠ '+' ∧ c ≠ '-' ∧ Char.toLower c = c ∧ c ≠ 'i' ∧ c ≠ 'n' ∧ c ≠ 'm' := by
  fin_cases h <;> decide

theorem decDigit_props {c : Char} (h : c ∈ decDigits) : c.isDigit = true ∧ c ≠ '.' := by
  fin_cases h <;> decide

theorem mem_numDotSet_of_mem_decDigits {c : Char} (h : c ∈ decDigits) : c ∈ numDotSet :=
  List.mem_cons_of_mem _ h

/-! ### Decimal printing -/

theorem digitsValL_append (l : List Char) (c : Char) :
    digitsValL (l ++ [c]) = 10 * digitsValL l + (c.toNat - 48) := by
  simp [digitsValL, List.foldl_append]

theorem natDigitsAux_mem : ∀ fuel n, ∀ c ∈ natDigitsAux fuel n, c ∈ decDigits := by
  intro fuel
  induction fuel with
  | zero => intro n c h; simp [natDigitsAux] at h
  | succ fuel ih =>
    intro n c h
    by_cases hn : n = 0
    · simp [natDigitsAux, hn] at h
    · rw [natDigitsAux, if_neg hn] at h
      rcases List.mem_append.mp h with h | h
      · exact ih _ _ h
      · rcases List.mem_singleton.mp h with rfl
        exact digitChar_mem_decDigits (Nat.mod_lt _ (by norm_num))

theorem natDigitsAux_val : ∀ fuel n, n ≤ fuel → digitsValL (natDigitsAux fuel n) = n := by
  intro fuel
  induction fuel with
  | zero => intro n h; interval_cases n; simp [natDigitsAux, digitsValL]
  | succ fuel ih =>
    intro n h
    by_cases hn : n = 0
    · simp [natDigitsAux, hn, digitsValL]
    · have hdiv : n / 10 ≤ fuel := by
        have := Nat.div_lt_self (Nat.pos_of_ne_zero hn) (by norm_num : (1 : Nat) < 10)
        omega
      rw [natDigitsAux, if_neg hn, digitsValL_append, ih (n / 10) hdiv,
        digitChar_toNat (Nat.mod_lt _ (by norm_num))]
      exact Nat.div_add_mod n 10

theorem natDecChars_mem (n : Nat) : ∀ c ∈ natDecChars n, c ∈ decDigits := by
  intro c h
  by_cases hn : n = 0
  · simp [natDecChars, hn] at h; simp [h]; decide
  · rw [natDecChars, if_neg hn] at h
    exact natDigitsAux_mem _ _ _ h

theorem natDecChars_ne_nil (n : Nat) : natDecChars n ≠ [] := by
  by_cases hn : n = 0
  · simp [natDecChars, hn]
  · rw [natDecChars, if_neg hn]
    intro hc
    have := natDigitsAux_val (n + 1) n (by omega)
    rw [hc] at this
    simp [digitsValL] at this
    omega

theorem natDecChars_val (n : Nat) : digitsValL (natDecChars n) = n := by
  by_cases hn : n = 0
  · simp [natDecChars, hn, digitsValL]
  · rw [natDecChars, if_neg hn]
    exact natDigitsAux_val (n + 1) n (by omega)

theorem padDigits_mem : ∀ d b, ∀ c ∈ padDigits d b, c ∈ decDigits := by
  intro d
  induction d with
  | zero => intro b c h; simp [padDigits] at h
  | succ d ih =>
    intro b c h
    rw [padDigits] at h
    rcases List.mem_append.mp h with h | h
    · exact ih _ _ h
    · rcases List.mem_singleton.mp h with rfl
      exact digitChar_mem_decDigits (Nat.mod_lt _ (by norm_num))

theorem padDigits_len : ∀ d b, (padDigits d b).length = d := by
  intro d
  induction d with
  | zero => intro b; simp [padDigits]
  | succ d ih => intro b; rw [padDigits]; simp [ih]

theorem padDigits_val : ∀ d b, b < 10 ^ d → digitsValL (padDigits d b) = b := by
  intro d
  induction d with
  | zero => intro b h; interval_cases b; simp [padDigits, digitsValL]
  | succ d ih =>
    intro b h
    rw [padDigits, digitsValL_append, ih (b / 10) (by
        rw [Nat.div_lt_iff_lt_mul (by norm_num)]
        calc b < 10 ^ (d + 1) := h
        _ = 10 ^ d * 10 := by ring),
      digitChar_toNat (Nat.mod_lt _ (by norm_num))]
    exact Nat.div_add_mod b 10

/-! ### Parsing a printed number -/

theorem dropWhile_eq_self_of {p : Char → Bool} :
    ∀ {l : List Char}, (∀ c ∈ l, p c = false) → l.dropWhile p = l := by
  intro l h
  cases l with
  | nil => rfl
  | cons c cs => simp [List.dropWhile_cons, h c (List.mem_cons_self c cs)]

theorem stripList_eq_self {l : List Char} (h : ∀ c ∈ l, c.isWhitespace = false) :
    stripList l = l := by
  unfold stripList
  rw [dropWhile_eq_self_of h, dropWhile_eq_self_of (by
    intro c hc
    exact h c (List.mem_reverse.mp hc)), List.reverse_reverse]

theorem takeWhile_append_all (p : Char → Bool) :
    ∀ l1 l2 : List Char, (∀ c ∈ l1, p c = true) →
      (∀ c ∈ l2.take 1, p c = false) →
      (l1 ++ l2).takeWhile p = l1 ∧ (l1 ++ l2).dropWhile p = l2 := by
  intro l1
  induction l1 with
  | nil =>
    intro l2 _ h2
    cases l2 with
    | nil => simp
    | cons c cs =>
      simp [List.takeWhile_cons, List.dropWhile_cons, h2 c (by simp)]
  | cons a l1 ih =>
    intro l2 h1 h2
    have ha := h1 a (List.mem_cons_self a l1)
    have := ih l2 (fun c hc => h1 c (List.mem_cons_of_mem a hc)) h2
    simp [List.takeWhile_cons, List.dropWhile_cons, ha, this.1, this.2]

theorem breakAtDot_none : ∀ {l : List Char}, (∀ c ∈ l, c ≠ '.') → breakAtDot l = none := by
  intro l
  induction l with
  | nil => intro _; rfl
  | cons c cs ih =>
    intro h
    rw [breakAtDot, if_neg (by
      simp only [beq_iff_eq]
      exact h c (List.mem_cons_self c cs)), ih (fun x hx => h x (List.mem_cons_of_mem c hx))]
    rfl

theorem breakAtDot_split :
    ∀ l1 l2 : List Char, (∀ c ∈ l1, c ≠ '.') →
      breakAtDot (l1 ++ '.' :: l2) = some (l1, l2) := by
  intro l1
  induction l1 with
  | nil => intro l2 _; simp [breakAtDot]
  | cons a l1 ih =>
    intro l2 h
    rw [List.cons_append, breakAtDot, if_neg (by
      simp only [beq_iff_eq]
      exact h a (List.mem_cons_self a l1)),
      ih l2 (fun c hc => h c (List.mem_cons_of_mem a hc))]
    rfl

theorem breakAtExp_none : ∀ {l : List Char}, (∀ c ∈ l, c ≠ 'e' ∧ c ≠ 'E') →
    breakAtExp l = none := by
  intro l
  induction l with
  | nil => intro _; rfl
  | cons c cs ih =>
    intro h
    have hc := h c (List.mem_cons_self c cs)
    rw [breakAtExp, if_neg (by
      simp only [Bool.or_eq_true, beq_iff_eq]
      tauto), ih (fun x hx => h x (List.mem_cons_of_mem c hx))]
    rfl

theorem validDigitTail_of_digits :
    ∀ {l : List Char}, (∀ c ∈ l, c.isDigit = true ∧ c ≠ '_') → validDigitTail l = true := by
  intro l
  induction l with
  | nil => intro _; rfl
  | cons c cs ih =>
    intro h
    have hc := h c (List.mem_cons_self c cs)
    cases cs with
    | nil => simp [validDigitTail, hc.1, hc.2]
    | cons d ds =>
      rw [validDigitTail, if_neg (by simp [hc.2])]
      simp [hc.1, ih (fun x hx => h x (List.mem_cons_of_mem c hx))]

theorem validDigitPart_of_digits {l : List Char} (hne : l ≠ [])
    (h : ∀ c ∈ l, c.isDigit = true ∧ c ≠ '_') : validDigitPart l = true := by
  cases l with
  | nil => exact absurd rfl hne
  | cons c cs =>
    rw [validDigitPart]
    simp [(h c (List.mem_cons_self c cs)).1,
      validDigitTail_of_digits (fun x hx => h x (List.mem_cons_of_mem c hx))]

theorem digitPartChars_eq_self {l : List Char} (h : ∀ c ∈ l, c ≠ '_') :
    digitPartChars l = l := by
  unfold digitPartChars
  rw [List.filter_eq_self]
  intro c hc
  simp [h c hc]

theorem digits_valid_of_decDigits {l : List Char} (h : ∀ c ∈ l, c ∈ decDigits) :
    (∀ c ∈ l, c.isDigit = true ∧ c ≠ '_') := by
  intro c hc
  exact ⟨(decDigit_props (h c hc)).1, (numDot_props (mem_numDotSet_of_mem_decDigits (h c hc))).1⟩

theorem digitPartVal_of_decDigits {l : List Char} (h : ∀ c ∈ l, c ∈ decDigits) :
    digitPartVal l = digitsValL l := by
  unfold digitPartVal
  rw [digitPartChars_eq_self (fun c hc => (digits_valid_of_decDigits h c hc).2)]

theorem digitPartLen_of_decDigits {l : List Char} (h : ∀ c ∈ l, c ∈ decDigits) :
    digitPartLen l = l.length := by
  unfold digitPartLen
  rw [digitPartChars_eq_self (fun c hc => (digits_valid_of_decDigits h c hc).2)]

theorem mantissaVal_digits {l : List Char} (hne : l ≠ []) (h : ∀ c ∈ l, c ∈ decDigits) :
    mantissaVal l = some ⟨(digitsValL l : Int), 1⟩ := by
  unfold mantissaVal
  rw [breakAtDot_none (fun c hc => (decDigit_props (h c hc)).2),
    if_pos (validDigitPart_of_digits hne (digits_valid_of_decDigits h)),
    digitPartVal_of_decDigits h]

theorem mantissaVal_dot (l1 l2 : List Char) (hne : l1 ≠ [])
    (h1 : ∀ c ∈ l1, c ∈ decDigits) (h2 : ∀ c ∈ l2, c ∈ decDigits) :
    mantissaVal (l1 ++ '.' :: l2) =
      some ⟨(digitsValL l1 : Int) * 10 ^ l2.length + (digitsValL l2 : Int), 10 ^ l2.length⟩ := by
  unfold mantissaVal
  rw [breakAtDot_split l1 l2 (fun c hc => (decDigit_props (h1 c hc)).2)]
  have hip : l1.isEmpty = false := by
    cases l1 with
    | nil => exact absurd rfl hne
    | cons a as => rfl
  have hvp1 : validDigitPart l1 = true :=
    validDigitPart_of_digits hne (digits_valid_of_decDigits h1)
  have hfp : (l2.isEmpty || validDigitPart l2) = true := by
    cases l2 with
    | nil => rfl
    | cons a as =>
      simp only [List.isEmpty_cons, Bool.false_or]
      exact validDigitPart_of_digits (by simp) (digits_valid_of_decDigits h2)
  simp only [hip, hvp1, hfp, Bool.false_and, Bool.false_eq_true, if_false, Bool.false_or,
    Bool.true_and, Bool.and_true, Bool.true_or, if_true]
  rw [digitPartVal_of_decDigits h1, digitPartVal_of_decDigits h2, digitPartLen_of_decDigits h2]

theorem lowerList_ne_head {c : Char} {cs : List Char} {d : Char} {ds : List Char}
    (hc : Char.toLower c = c) (hne : c ≠ d) : (lowerList (c :: cs) == d :: ds) = false := by
  rw [beq_eq_false_iff_ne]
  intro he
  rw [lowerList, List.map_cons, hc] at he
  injection he with h1 _
  exact hne h1

theorem pyFloatMag_of_mantissa {l : List Char} (h : ∀ c ∈ l, c ∈ numDotSet)
    {f : Frac} (hm : mantissaVal l = some f) : pyFloatMag l = some (.fin f) := by
  cases l with
  | nil => simp [mantissaVal, breakAtDot, validDigitPart] at hm
  | cons c cs =>
    have hp := numDot_props (h c (List.mem_cons_self c cs))
    have hinf1 : (lowerList (c :: cs) == infChars) = false :=
      lowerList_ne_head hp.2.2.2.2.2.2.2.1 hp.2.2.2.2.2.2.2.2.1
    have hinfy1 : (lowerList (c :: cs) == infinityChars) = false :=
      lowerList_ne_head hp.2.2.2.2.2.2.2.1 hp.2.2.2.2.2.2.2.2.1
    have hnan1 : (lowerList (c :: cs) == nanChars) = false :=
      lowerList_ne_head hp.2.2.2.2.2.2.2.1 hp.2.2.2.2.2.2.2.2.2.1
    have hexp : breakAtExp (c :: cs) = none :=
      breakAtExp_none (fun x hx => ⟨(numDot_props (h x hx)).2.1, (numDot_props (h x hx)).2.2.1⟩)
    simp [pyFloatMag, hinf1, hinfy1, hnan1, hexp, hm]

theorem pyFloat_print {l : List Char} (h : ∀ c ∈ l, c ∈ numDotSet)
    {f : Frac} (hm : mantissaVal l = some f) :
    pyFloat (String.mk l) = some (.fin f) := by
  cases l with
  | nil => simp [mantissaVal, breakAtDot, validDigitPart] at hm
  | cons c cs =>
    have hp := numDot_props (h c (List.mem_cons_self c cs))
    have hstrip : stripList (String.mk (c :: cs)).toList = c :: cs :=
      stripList_eq_self (fun x hx => (numDot_props (h x hx)).2.2.2.1)
    have hplus : (c == '+') = false := by simp [hp.2.2.2.2.2.1]
    have hminus : (c == '-') = false := by simp [hp.2.2.2.2.2.2.1]
    rw [pyFloat, hstrip]
    simp only [hplus, hminus, Bool.false_eq_true, if_false]
    exact pyFloatMag_of_mantissa h hm

theorem pyFloat_natDecChars (n : Nat) :
    pyFloat (natDecStr n) = some (.fin ⟨(n : Int), 1⟩) := by
  have hm := mantissaVal_digits (natDecChars_ne_nil n) (natDecChars_mem n)
  rw [natDecChars_val] at hm
  exact pyFloat_print (fun c hc => mem_numDotSet_of_mem_decDigits (natDecChars_mem n c hc)) hm

theorem pyFloat_decimal (a d b : Nat) (hb : b < 10 ^ d) :
    pyFloat (String.mk (natDecChars a ++ '.' :: padDigits d b)) =
      some (.fin ⟨(a : Int) * 10 ^ d + (b : Int), 10 ^ d⟩) := by
  have hm := mantissaVal_dot (natDecChars a) (padDigits d b) (natDecChars_ne_nil a)
    (natDecChars_mem a) (padDigits_mem d b)
  rw [natDecChars_val, padDigits_val d b hb, padDigits_len] at hm
  refine pyFloat_print (fun c hc => ?_) hm
  rcases List.mem_append.mp hc with hc | hc
  · exact mem_numDotSet_of_mem_decDigits (natDecChars_mem a c hc)
  · rcases List.mem_cons.mp hc with rfl | hc
    · exact List.mem_cons_self _ _
    · exact mem_numDotSet_of_mem_decDigits (padDigits_mem d b c hc)

/-! ### Strings -/

theorem toList_append (s t : String) : (s ++ t).toList = s.toList ++ t.toList := by
  cases s
  cases t
  rfl

theorem mk_toList (l : List Char) : (String.mk l).toList = l := rfl

theorem mk_inj {l1 l2 : List Char} (h : String.mk l1 = String.mk l2) : l1 = l2 := by
  injection h

theorem mk_beq_empty {l : List Char} (h : l ≠ []) : (String.mk l == "") = false := by
  rw [beq_eq_false_iff_ne]
  intro he
  have he' : String.mk l = String.mk [] := he
  exact h (mk_inj he')

theorem append_mk (l1 l2 : List Char) :
    String.mk l1 ++ String.mk l2 = String.mk (l1 ++ l2) := rfl

/-! ### The memory regex and convert_memory_to_bytes on printed numbers -/

theorem memRegexMatch_split (np us : List Char) (hne : np ≠ [])
    (hnp : ∀ c ∈ np, isNumDotChar c = true)
    (hus : ∀ c ∈ us.take 1, isNumDotChar c = false)
    (hu : unitOk us = true) :
    memRegexMatch (String.mk (np ++ us)) = some (String.mk np, String.mk us) := by
  have h := takeWhile_append_all isNumDotChar np us hnp hus
  have hemp : np.isEmpty = false := by
    cases np with
    | nil => exact absurd rfl hne
    | cons a as => rfl
  simp only [memRegexMatch, mk_toList, h.1, h.2, hemp, Bool.false_eq_true, if_false, hu, if_true]

theorem convert_print (np us : List Char) {f : Frac} (hne : np ≠ [])
    (hnp : ∀ c ∈ np, isNumDotChar c = true)
    (hus : ∀ c ∈ us.take 1, isNumDotChar c = false)
    (hu : unitOk us = true)
    (hf : pyFloat (String.mk np) = some (.fin f)) :
    convert_memory_to_bytes (String.mk (np ++ us)) =
      some (memUnitBytes f (lowerStr (String.mk us))) := by
  have happ : np ++ us ≠ [] := by
    cases np with
    | nil => exact absurd rfl hne
    | cons a as => simp
  unfold convert_memory_to_bytes
  rw [mk_beq_empty happ]
  simp only [Bool.false_eq_true, if_false, memRegexMatch_split np us hne hnp hus hu, hf]

/-! ### Rounding -/

theorem floorF_eq (f : Frac) : f.floorF = ⌊f.val⌋ := by
  unfold Frac.floorF Frac.val
  exact (Rat.floor_intCast_div_natCast f.n f.d).symm

theorem rheF_nonneg (f : Frac) (hn : 0 ≤ f.n) : 0 ≤ rheF f := by
  have hfl : 0 ≤ f.floorF := Int.ediv_nonneg hn (by positivity)
  simp only [rheF]
  split_ifs <;> omega

theorem rheF_bound (f : Frac) (hd : 0 < f.d) : |(rheF f : ℚ) - f.val| ≤ 1 / 2 := by
  have hdq : (0 : ℚ) < (f.d : ℚ) := by exact_mod_cast hd
  have hdz : (f.d : Int) ≠ 0 := by exact_mod_cast hd.ne'
  set fl := f.floorF with hfl
  set r := f.n - fl * (f.d : Int) with hr
  have hrmod : r = f.n % (f.d : Int) := by
    rw [hr, hfl]
    unfold Frac.floorF
    rw [Int.emod_def]
    ring
  have hr0 : 0 ≤ r := hrmod ▸ Int.emod_nonneg f.n hdz
  have hrd : r < (f.d : Int) := hrmod ▸ Int.emod_lt_of_pos f.n (by exact_mod_cast hd)
  have hval : f.val = (fl : ℚ) + (r : ℚ) / (f.d : ℚ) := by
    unfold Frac.val
    rw [hr]
    push_cast
    field_simp
  have hr0q : (0 : ℚ) ≤ (r : ℚ) := by exact_mod_cast hr0
  have hrdq : (r : ℚ) < (f.d : ℚ) := by exact_mod_cast hrd
  have hnn : (0 : ℚ) ≤ (r : ℚ) / (f.d : ℚ) := by positivity
  have hlt1 : (r : ℚ) / (f.d : ℚ) < 1 := by
    rw [div_lt_one hdq]
    exact hrdq
  simp only [rheF]
  rw [← hfl, ← hr]
  split_ifs with h1 h2 h3
  · have hhalf : (r : ℚ) / (f.d : ℚ) ≤ 1 / 2 := by
      rw [div_le_div_iff hdq (by norm_num : (0 : ℚ) < 2)]
      have : 2 * (r : ℚ) < (f.d : ℚ) := by exact_mod_cast h1
      linarith
    rw [abs_le, hval]
    constructor <;> linarith
  · have hhalf : 1 / 2 ≤ (r : ℚ) / (f.d : ℚ) := by
      rw [div_le_div_iff (by norm_num : (0 : ℚ) < 2) hdq]
      have : (f.d : ℚ) < 2 * (r : ℚ) := by exact_mod_cast h2
      linarith
    rw [abs_le, hval]
    constructor <;> push_cast <;> linarith
  · have heq : (r : ℚ) / (f.d : ℚ) = 1 / 2 := by
      rw [div_eq_iff (ne_of_gt hdq)]
      have : 2 * r = (f.d : Int) := by omega
      have h2q : 2 * (r : ℚ) = (f.d : ℚ) := by exact_mod_cast this
      linarith
    rw [abs_le, hval, heq]
    constructor <;> push_cast <;> linarith
  · have heq : (r : ℚ) / (f.d : ℚ) = 1 / 2 := by
      rw [div_eq_iff (ne_of_gt hdq)]
      have : 2 * r = (f.d : Int) := by omega
      have h2q : 2 * (r : ℚ) = (f.d : ℚ) := by exact_mod_cast this
      linarith
    rw [abs_le, hval, heq]
    constructor <;> push_cast <;> linarith

theorem truncF_eq_floor (f : Frac) (hn : 0 ≤ f.n) : truncF f = ⌊f.val⌋ := by
  rw [← floorF_eq]
  unfold truncF Frac.floorF
  exact Int.tdiv_eq_ediv hn (by positivity)

theorem truncF_int (k : Int) : truncF ⟨k, 1⟩ = k := Int.tdiv_one k

/-! ### The pods-block state machine -/

theorem podsStep_hdr (st : PodsSt) (line : String) (h : hasSub line podsHdr = true) :
    podsStep st line = ⟨true, 0, st.acc⟩ := by
  simp [podsStep, h]

theorem podsStep_skip (l : String) (k : Nat) (acc : List String)
    (hp : hasSub l podsHdr = false) (ha : hasSub l allocHdr = false) (hk : k < 2) :
    podsStep ⟨true, k, acc⟩ l = ⟨true, k + 1, acc⟩ := by
  simp [podsStep, hp, ha, hk]

theorem podsStep_close (l : String) (k : Nat) (acc : List String)
    (hp : hasSub l podsHdr = false) (ha : hasSub l allocHdr = true) :
    podsStep ⟨true, k, acc⟩ l = ⟨false, k, acc⟩ := by
  simp [podsStep, hp, ha]

theorem podsFold_outside : ∀ (ls : List String) (st : PodsSt), st.inb = false →
    (∀ l ∈ ls, hasSub l podsHdr = false) → ls.foldl podsStep st = st := by
  intro ls
  induction ls with
  | nil => intro st _ _; rfl
  | cons l ls ih =>
    intro st hst h
    rw [List.foldl_cons]
    have hstep : podsStep st l = st := by
      rcases st with ⟨inb, skip, acc⟩
      simp only at hst
      subst hst
      simp [podsStep, h l (List.mem_cons_self l ls)]
    rw [hstep]
    exact ih st hst (fun x hx => h x (List.mem_cons_of_mem l hx))

theorem podsFold_body : ∀ (ls : List String) (acc : List String),
    (∀ l ∈ ls, hasSub l podsHdr = false ∧ hasSub l allocHdr = false) →
    ls.foldl podsStep ⟨true, 2, acc⟩ = ⟨true, 2, acc ++ ls.map pyStrip⟩ := by
  intro ls
  induction ls with
  | nil => intro acc _; simp
  | cons l ls ih =>
    intro acc h
    have hl := h l (List.mem_cons_self l ls)
    rw [List.foldl_cons]
    have hstep : podsStep ⟨true, 2, acc⟩ l = ⟨true, 2, acc ++ [pyStrip l]⟩ := by
      simp [podsStep, hl.1, hl.2]
    rw [hstep, ih (acc ++ [pyStrip l]) (fun x hx => h x (List.mem_cons_of_mem l hx))]
    simp

/-- Structure of the pods block for a single well-delimited section: the block
is exactly the stripped body lines. -/
theorem podsBlock_single (pre : List String) (hl s1 s2 : String) (body : List String)
    (hpre : ∀ l ∈ pre, hasSub l podsHdr = false)
    (hhl : hasSub hl podsHdr = true)
    (hs1p : hasSub s1 podsHdr = false) (hs1a : hasSub s1 allocHdr = false)
    (hs2p : hasSub s2 podsHdr = false) (hs2a : hasSub s2 allocHdr = false)
    (hbody : ∀ l ∈ body, hasSub l podsHdr = false ∧ hasSub l allocHdr = false) :
    podsBlock (pre ++ hl :: s1 :: s2 :: body) = body.map pyStrip := by
  unfold podsBlock
  rw [List.foldl_append, podsFold_outside pre ⟨false, 0, []⟩ rfl hpre, List.foldl_cons,
    podsStep_hdr _ _ hhl, List.foldl_cons, podsStep_skip s1 0 [] hs1p hs1a (by norm_num),
    List.foldl_cons, podsStep_skip s2 1 [] hs2p hs2a (by norm_num),
    podsFold_body body [] hbody]
  simp

/-! ### The pod-detail loop -/

/-- Formatting of a list of accepted token rows, in order; `none` as soon as a
converter raises. -/
def fmtRows : List (List String) → Option (List (List String))
  | [] => some []
  | parts :: rest => do
    let r ← podRowFmt parts
    let rs ← fmtRows rest
    pure (r :: rs)

theorem podDetailsAux_eq : ∀ (blk : List String) (acc : List (List String)),
    podDetailsAux blk acc = (fmtRows (blk.filterMap rawAccept)).map (fun rs => acc ++ rs) := by
  intro blk
  induction blk with
  | nil => intro acc; simp [podDetailsAux, fmtRows]
  | cons l rest ih =>
    intro acc
    by_cases hb : (l == "") = true
    · rw [podDetailsAux, if_pos hb, List.filterMap_cons, show rawAccept l = none by
        simp [rawAccept, hb]]
      exact ih acc
    · rw [podDetailsAux, if_neg hb]
      by_cases hlen : 9 ≤ (pySplit l).length
      · rw [if_pos hlen, List.filterMap_cons, show rawAccept l = some (pySplit l) by
          simp only [rawAccept, hb, Bool.false_eq_true, if_false, hlen, if_true]]
        rw [fmtRows]
        cases hfmt : podRowFmt (pySplit l) with
        | none => simp [hfmt]
        | some r =>
          show podDetailsAux rest (acc ++ [r]) =
            Option.map (fun rs => acc ++ rs)
              ((fmtRows (rest.filterMap rawAccept)).bind fun rs => some (r :: rs))
          rw [ih (acc ++ [r])]
          cases hrows : fmtRows (rest.filterMap rawAccept) <;> simp [hrows]
      · rw [if_neg hlen, List.filterMap_cons, show rawAccept l = none by
          simp only [rawAccept, hb, Bool.false_eq_true, if_false, hlen, if_false]]
        exact ih acc

theorem podDetails_eq (blk : List String) :
    podDetails blk = fmtRows (blk.filterMap rawAccept) := by
  rw [podDetails, podDetailsAux_eq]
  cases fmtRows (blk.filterMap rawAccept) with
  | none => rfl
  | some rs => simp

/-! ### The allocated-resources fields -/

theorem allocFields_append_cpu (xs : List String) (l : String)
    (hc : (pySplit l).contains "cpu" = true) :
    allocFields (xs ++ [l]) =
      { allocFields xs with
        cpu_req := (pySplit l).getD 1 "", cpu_limit := (pySplit l).getD 3 "" } := by
  have hc' : "cpu" ∈ pySplit l := by simpa using hc
  unfold allocFields
  rw [List.foldl_append]
  simp [allocLineStep, hc']

theorem allocFields_append_mem (xs : List String) (l : String)
    (hc : (pySplit l).contains "cpu" = false)
    (hm : (pySplit l).contains "memory" = true) :
    allocFields (xs ++ [l]) =
      { allocFields xs with
        mem_req := (pySplit l).getD 1 "", mem_limit := (pySplit l).getD 3 "" } := by
  have hc' : "cpu" ∉ pySplit l := by simpa using hc
  have hm' : "memory" ∈ pySplit l := by simpa using hm
  unfold allocFields
  rw [List.foldl_append]
  simp [allocLineStep, hc', hm']

/-! ### Claim theorems -/

/-- C1: the claim states that `convert_memory_to_bytes` (manual-parse path)
never raises and yields 0 on every unparseable input.  In fact `"1.2.3"`
matches the regex `^([0-9.]+)...$`, and `float("1.2.3")` then raises an
uncaught `ValueError`, so the function raises instead of returning 0. -/
theorem c1_toBytes_raises_on_multidot : convert_memory_to_bytes "1.2.3" = none := by decide

/-- C2: the claim states that neither CPU formatter ever raises, including on
malformed `m`-suffixed strings such as `"abcm"`.  In fact
`format_cpu_cores "abcm"` reaches the unguarded `float("abc")` call and raises
`ValueError`, while `format_cpu_m "abcm"` passes the value through. -/
theorem c2_cpu_formatter_raises_on_bad_m :
    format_cpu_cores "abcm" = none ∧ format_cpu_m "abcm" = some "abcm" := by decide

/-- C3 (counterexample): the claim says unit suffixes are recognised in any
letter case, so `toBytes("1ki")` would be 1024; in fact the regex unit group
`[KMGTPEZY]i?B?` is case sensitive, `"1ki"` fails the regex, and the result
is 0. -/
theorem c3_lowercase_unit_yields_zero :
    convert_memory_to_bytes "1ki" = some 0 ∧ convert_memory_to_bytes "1ki" ≠ some 1024 := by
  decide

/-- C7: the claim states the scanner returns for every diagnostic text; in
fact a memory line whose request token is `"."` reaches
`convert_memory_to_gib(".")`, whose manual parse calls `float(".")`, raising
an uncaught `ValueError`. -/
theorem c7_scanner_raises_on_dot_token :
    get_node_details "Allocated resources:\n memory . (0%) . (0%)\nEvents:" = none := by decide

/-- C9: the concrete formatting equations of the spec, checked by computation:
`cpuToCores("500m") = "0.50cores"`, `cpuToCores("2") = "2.00cores"`,
`cpuToMillicores("0.5") = "500m"`, `cpuToMillicores("250m") = "250m"`,
`toBytes("1Gi") = 1073741824`, `toGiB("1073741824") = "1.00Gi"`,
`toMiB("2097152") = "2Mi"`. -/
theorem c9_concrete_equations :
    format_cpu_cores "500m" = some "0.50cores" ∧
    format_cpu_cores "2" = some "2.00cores" ∧
    format_cpu_m "0.5" = some "500m" ∧
    format_cpu_m "250m" = some "250m" ∧
    convert_memory_to_bytes "1Gi" = some 1073741824 ∧
    convert_memory_to_gib "1073741824" = some "1.00Gi" ∧
    convert_memory_to_mib "2097152" = some "2Mi" := by decide

/-- C10: inside the allocated-resources parse, a line whose whitespace tokens
contain both `"cpu"` and `"memory"` updates only the CPU request/limit fields;
the memory fields keep their previous values (the `cpu` branch shadows the
`memory` branch). -/
theorem c10_cpu_branch_shadows_memory (xs : List String) (l : String)
    (hcpu : (pySplit l).contains "cpu" = true)
    (hmem : (pySplit l).contains "memory" = true) :
    (allocFields (xs ++ [l])).mem_req = (allocFields xs).mem_req ∧
    (allocFields (xs ++ [l])).mem_limit = (allocFields xs).mem_limit ∧
    (allocFields (xs ++ [l])).cpu_req = (pySplit l).getD 1 "" ∧
    (allocFields (xs ++ [l])).cpu_limit = (pySplit l).getD 3 "" := by
  rw [allocFields_append_cpu xs l hcpu]
  exact ⟨rfl, rfl, rfl, rfl⟩

/-- Witness for C10 at the concrete line `"cpu memory a b"`. -/
theorem c10_witness :
    ((pySplit "cpu memory a b").contains "cpu" = true ∧
      (pySplit "cpu memory a b").contains "memory" = true) ∧
    ((allocFields ([] ++ ["cpu memory a b"])).mem_req = (allocFields []).mem_req ∧
      (allocFields ([] ++ ["cpu memory a b"])).mem_limit = (allocFields []).mem_limit ∧
      (allocFields ([] ++ ["cpu memory a b"])).cpu_req = (pySplit "cpu memory a b").getD 1 "" ∧
      (allocFields ([] ++ ["cpu memory a b"])).cpu_limit =
        (pySplit "cpu memory a b").getD 3 "") :=
  ⟨⟨by decide, by decide⟩,
    c10_cpu_branch_shadows_memory [] "cpu memory a b" (by decide) (by decide)⟩

/-- A diagnostic text with two complete `Non-terminated Pods:` sections, one
valid data row each. -/
def c4doc : String :=
  "Non-terminated Pods: (1 in total)\n NAMESPACE NAME CPUREQ R CPULIM L MEMREQ M MEMLIM X\n --------- ----\n ns1 pod1 100m (5%) 200m (10%) 100Mi (3%) 200Mi (6%)\nAllocated resources:\nNon-terminated Pods: (1 in total)\n NAMESPACE NAME CPUREQ R CPULIM L MEMREQ M MEMLIM X\n --------- ----\n ns2 pod2 300m (5%) 400m (10%) 300Mi (3%) 400Mi (6%)"

/-- C4 (counterexample): on a text whose `Non-terminated Pods:` header occurs
twice, the scanner's pod-detail output is the concatenation of both
occurrences' rows, not the last occurrence's interpretation alone. -/
theorem c4_repeated_sections_concatenate :
    get_node_details c4doc =
      some ⟨"", "", "", "", "1",
        [["ns1", "pod1", "100m", "200m", "100Mi", "200Mi"],
          ["ns2", "pod2", "300m", "400m", "300Mi", "400Mi"]]⟩ ∧
    ([["ns1", "pod1", "100m", "200m", "100Mi", "200Mi"],
        ["ns2", "pod2", "300m", "400m", "300Mi", "400Mi"]] : List (List String)) ≠
      [["ns2", "pod2", "300m", "400m", "300Mi", "400Mi"]] := by decide

/-- Structure of the pods block when the header occurs twice, each occurrence
closed properly: the collected lines are the two stripped bodies concatenated. -/
theorem podsBlock_double (pre : List String) (hl1 s1 s2 : String) (body1 : List String)
    (closer hl2 s3 s4 : String) (body2 : List String)
    (hpre : ∀ l ∈ pre, hasSub l podsHdr = false)
    (hhl1 : hasSub hl1 podsHdr = true)
    (hs1p : hasSub s1 podsHdr = false) (hs1a : hasSub s1 allocHdr = false)
    (hs2p : hasSub s2 podsHdr = false) (hs2a : hasSub s2 allocHdr = false)
    (hbody1 : ∀ l ∈ body1, hasSub l podsHdr = false ∧ hasSub l allocHdr = false)
    (hcp : hasSub closer podsHdr = false) (hca : hasSub closer allocHdr = true)
    (hhl2 : hasSub hl2 podsHdr = true)
    (hs3p : hasSub s3 podsHdr = false) (hs3a : hasSub s3 allocHdr = false)
    (hs4p : hasSub s4 podsHdr = false) (hs4a : hasSub s4 allocHdr = false)
    (hbody2 : ∀ l ∈ body2, hasSub l podsHdr = false ∧ hasSub l allocHdr = false) :
    podsBlock (pre ++ hl1 :: s1 :: s2 :: (body1 ++ closer :: hl2 :: s3 :: s4 :: body2)) =
      body1.map pyStrip ++ body2.map pyStrip := by
  unfold podsBlock
  rw [List.foldl_append, podsFold_outside pre ⟨false, 0, []⟩ rfl hpre, List.foldl_cons,
    podsStep_hdr _ _ hhl1, List.foldl_cons, podsStep_skip s1 0 [] hs1p hs1a (by norm_num),
    List.foldl_cons, podsStep_skip s2 1 [] hs2p hs2a (by norm_num), List.foldl_append,
    podsFold_body body1 [] hbody1, List.foldl_cons, podsStep_close closer 2 _ hcp hca,
    List.foldl_cons, podsStep_hdr _ _ hhl2, List.foldl_cons,
    podsStep_skip s3 0 _ hs3p hs3a (by norm_num), List.foldl_cons,
    podsStep_skip s4 1 _ hs4p hs4a (by norm_num), podsFold_body body2 _ hbody2]
  simp

/-- C4 (amended): when a recognised header repeats, the scanner does not keep
only the most recently closed occurrence.  For the `Non-terminated Pods:`
section the detail rows of all occurrences are concatenated in source order;
for the `Allocated resources:` aggregates, the fields are taken from the last
`cpu`-token (resp. `memory`-token) line across all collected occurrences, so a
later occurrence wins exactly when it supplies such a line. -/
theorem c4_amended_last_line_and_concat
    (pre : List String) (hl1 s1 s2 : String) (body1 : List String)
    (closer hl2 s3 s4 : String) (body2 : List String) (xs : List String) (l : String)
    (hpre : ∀ l ∈ pre, hasSub l podsHdr = false)
    (hhl1 : hasSub hl1 podsHdr = true)
    (hs1p : hasSub s1 podsHdr = false) (hs1a : hasSub s1 allocHdr = false)
    (hs2p : hasSub s2 podsHdr = false) (hs2a : hasSub s2 allocHdr = false)
    (hbody1 : ∀ l ∈ body1, hasSub l podsHdr = false ∧ hasSub l allocHdr = false)
    (hcp : hasSub closer podsHdr = false) (hca : hasSub closer allocHdr = true)
    (hhl2 : hasSub hl2 podsHdr = true)
    (hs3p : hasSub s3 podsHdr = false) (hs3a : hasSub s3 allocHdr = false)
    (hs4p : hasSub s4 podsHdr = false) (hs4a : hasSub s4 allocHdr = false)
    (hbody2 : ∀ l ∈ body2, hasSub l podsHdr = false ∧ hasSub l allocHdr = false) :
    podDetails (podsBlock (pre ++ hl1 :: s1 :: s2 :: (body1 ++ closer :: hl2 :: s3 :: s4 :: body2)))
      = fmtRows ((body1.map pyStrip).filterMap rawAccept ++
          (body2.map pyStrip).filterMap rawAccept) ∧
    ((pySplit l).contains "cpu" = true →
      allocFields (xs ++ [l]) =
        { allocFields xs with
          cpu_req := (pySplit l).getD 1 "", cpu_limit := (pySplit l).getD 3 "" }) ∧
    ((pySplit l).contains "cpu" = false → (pySplit l).contains "memory" = true →
      allocFields (xs ++ [l]) =
        { allocFields xs with
          mem_req := (pySplit l).getD 1 "", mem_limit := (pySplit l).getD 3 "" }) := by
  refine ⟨?_, fun hc => allocFields_append_cpu xs l hc,
    fun hc hm => allocFields_append_mem xs l hc hm⟩
  rw [podsBlock_double pre hl1 s1 s2 body1 closer hl2 s3 s4 body2 hpre hhl1 hs1p hs1a hs2p hs2a
    hbody1 hcp hca hhl2 hs3p hs3a hs4p hs4a hbody2, podDetails_eq, List.filterMap_append]

/-- C6: within a `Non-terminated Pods:` section, after the fixed two-line skip,
the accepted pod rows are exactly the (stripped) non-blank body lines with at
least 9 whitespace tokens, each row built by `podRowFmt` from tokens
0, 1, 2, 4, 6 and 8, in source order; shorter lines are skipped while later
well-formed lines are still captured. -/
theorem c6_pod_row_acceptance (pre : List String) (hl s1 s2 : String) (body : List String)
    (hpre : ∀ l ∈ pre, hasSub l podsHdr = false)
    (hhl : hasSub hl podsHdr = true)
    (hs1p : hasSub s1 podsHdr = false) (hs1a : hasSub s1 allocHdr = false)
    (hs2p : hasSub s2 podsHdr = false) (hs2a : hasSub s2 allocHdr = false)
    (hbody : ∀ l ∈ body, hasSub l podsHdr = false ∧ hasSub l allocHdr = false) :
    podDetails (podsBlock (pre ++ hl :: s1 :: s2 :: body)) =
      fmtRows ((body.map pyStrip).filterMap rawAccept) := by
  rw [podsBlock_single pre hl s1 s2 body hpre hhl hs1p hs1a hs2p hs2a hbody, podDetails_eq]

/-- Witness for the amended C4 at a concrete two-section document. -/
theorem c4_amended_witness :
    ((hasSub "Non-terminated Pods: (1 in total)" podsHdr = true ∧
        hasSub "Allocated resources:" allocHdr = true ∧
        hasSub "Allocated resources:" podsHdr = false ∧
        hasSub "h" podsHdr = false ∧ hasSub "h" allocHdr = false ∧
        (∀ l ∈ (["a b c d e f g h i"] : List String),
          hasSub l podsHdr = false ∧ hasSub l allocHdr = false) ∧
        (∀ l ∈ (["p q r s t u v w x"] : List String),
          hasSub l podsHdr = false ∧ hasSub l allocHdr = false)) ∧
      (pySplit "cpu 1 x 2").contains "cpu" = true) ∧
    (podDetails (podsBlock ([] ++ "Non-terminated Pods: (1 in total)" :: "h" :: "h" ::
          (["a b c d e f g h i"] ++ "Allocated resources:" ::
            "Non-terminated Pods: (1 in total)" :: "h" :: "h" :: ["p q r s t u v w x"])))
        = fmtRows ((["a b c d e f g h i"].map pyStrip).filterMap rawAccept ++
            (["p q r s t u v w x"].map pyStrip).filterMap rawAccept) ∧
      ((pySplit "cpu 1 x 2").contains "cpu" = true →
        allocFields ([] ++ ["cpu 1 x 2"]) =
          { allocFields [] with
            cpu_req := (pySplit "cpu 1 x 2").getD 1 "",
            cpu_limit := (pySplit "cpu 1 x 2").getD 3 "" }) ∧
      ((pySplit "cpu 1 x 2").contains "cpu" = false →
        (pySplit "cpu 1 x 2").contains "memory" = true →
        allocFields ([] ++ ["cpu 1 x 2"]) =
          { allocFields [] with
            mem_req := (pySplit "cpu 1 x 2").getD 1 "",
            mem_limit := (pySplit "cpu 1 x 2").getD 3 "" })) :=
  ⟨⟨⟨by decide, by decide, by decide, by decide, by decide, by decide, by decide⟩, by decide⟩,
    c4_amended_last_line_and_concat [] "Non-terminated Pods: (1 in total)" "h" "h"
      ["a b c d e f g h i"] "Allocated resources:" "Non-terminated Pods: (1 in total)" "h" "h"
      ["p q r s t u v w x"] [] "cpu 1 x 2" (by decide) (by decide) (by decide) (by decide)
      (by decide) (by decide) (by decide) (by decide) (by decide) (by decide) (by decide)
      (by decide) (by decide) (by decide) (by decide)⟩

/-- Witness for C6 at a concrete section holding a 9-token row, a short row and
a blank row. -/
theorem c6_witness :
    ((∀ l ∈ ([] : List String), hasSub l podsHdr = false) ∧
      hasSub "Non-terminated Pods: (2 in total)" podsHdr = true ∧
      (∀ l ∈ ([" ns1 p1 1m (0%) 2m (0%) 3Mi (0%) 4Mi", "too few tokens", ""] : List String),
        hasSub l podsHdr = false ∧ hasSub l allocHdr = false)) ∧
    podDetails (podsBlock ([] ++ "Non-terminated Pods: (2 in total)" :: "hdr" :: "---" ::
        [" ns1 p1 1m (0%) 2m (0%) 3Mi (0%) 4Mi", "too few tokens", ""])) =
      fmtRows (([" ns1 p1 1m (0%) 2m (0%) 3Mi (0%) 4Mi", "too few tokens", ""].map
          pyStrip).filterMap rawAccept) :=
  ⟨⟨by decide, by decide, by decide⟩,
    c6_pod_row_acceptance [] "Non-terminated Pods: (2 in total)" "hdr" "---"
      [" ns1 p1 1m (0%) 2m (0%) 3Mi (0%) 4Mi", "too few tokens", ""] (by decide) (by decide)
      (by decide) (by decide) (by decide) (by decide) (by decide)⟩

/-! ### Non-negativity of parsed byte counts -/

theorem mantissaVal_nonneg : ∀ {l : List Char} {f : Frac}, mantissaVal l = some f → 0 ≤ f.n := by
  intro l f h
  unfold mantissaVal at h
  split at h
  · split_ifs at h
    injection h with h
    subst h
    positivity
  · split_ifs at h
    injection h with h
    subst h
    positivity

theorem applyExp_nonneg (f : Frac) (e : Int) (h : 0 ≤ f.n) : 0 ≤ (applyExp f e).n := by
  unfold applyExp
  split_ifs <;> simp [Frac.mulNat, Frac.divNat] <;> positivity

theorem pyFloatMag_fin_nonneg : ∀ {l : List Char} {f : Frac},
    pyFloatMag l = some (.fin f) → 0 ≤ f.n := by
  intro l f h
  simp only [pyFloatMag] at h
  split_ifs at h
  · exact absurd h (by simp)
  · exact absurd h (by simp)
  · split at h
    · cases hm : mantissaVal l with
      | none => rw [hm] at h; exact absurd h (by simp)
      | some g =>
        rw [hm] at h
        simp only [Option.map_some'] at h
        injection h with h
        injection h with h
        subst h
        exact mantissaVal_nonneg hm
    · split at h
      · rename_i mv ev hm he
        injection h with h
        injection h with h
        subst h
        exact applyExp_nonneg mv ev (mantissaVal_nonneg hm)
      · exact absurd h (by simp)

theorem numDot_not_sign {c : Char} (h : isNumDotChar c = true) :
    (c == '+') = false ∧ (c == '-') = false := by
  constructor <;> (rw [beq_eq_false_iff_ne]; intro he; subst he; exact absurd h (by decide))

theorem stripList_mem {l : List Char} : ∀ c ∈ stripList l, c ∈ l := by
  intro c hc
  unfold stripList at hc
  rw [List.mem_reverse] at hc
  have hs1 : List.Sublist
      ((l.dropWhile Char.isWhitespace).reverse.dropWhile Char.isWhitespace)
      ((l.dropWhile Char.isWhitespace).reverse) := List.dropWhile_sublist _
  have h1 := hs1.subset hc
  rw [List.mem_reverse] at h1
  have hs2 : List.Sublist (l.dropWhile Char.isWhitespace) l := List.dropWhile_sublist _
  exact hs2.subset h1

theorem pyFloat_fin_nonneg {s : String} {f : Frac}
    (h : ∀ c ∈ s.toList, isNumDotChar c = true)
    (hf : pyFloat s = some (.fin f)) : 0 ≤ f.n := by
  unfold pyFloat at hf
  cases hst : stripList s.toList with
  | nil => rw [hst] at hf; exact absurd hf (by simp)
  | cons c rest =>
    rw [hst] at hf
    have hcn : isNumDotChar c = true := by
      have : c ∈ s.toList := stripList_mem c (hst ▸ List.mem_cons_self c rest)
      exact h c this
    simp only [(numDot_not_sign hcn).1, (numDot_not_sign hcn).2, Bool.false_eq_true,
      if_false] at hf
    exact pyFloatMag_fin_nonneg hf

theorem memUnitBytes_nonneg (f : Frac) (u : String) (h : 0 ≤ f.n) : 0 ≤ memUnitBytes f u := by
  unfold memUnitBytes truncF Frac.mulNat
  split_ifs <;> exact Int.tdiv_nonneg (by positivity) (by positivity)

theorem memRegexMatch_inv {s : String} {numStr unitStr : String}
    (h : memRegexMatch s = some (numStr, unitStr)) :
    ∀ c ∈ numStr.toList, isNumDotChar c = true := by
  simp only [memRegexMatch] at h
  split_ifs at h with h1 h2
  · injection h with h
    rw [Prod.mk.injEq] at h
    obtain ⟨ha, hb⟩ := h
    subst ha
    intro c hc
    exact List.mem_takeWhile_imp hc

theorem toBytes_nonneg {q : String} {b : Int}
    (h : convert_memory_to_bytes q = some b) : 0 ≤ b := by
  unfold convert_memory_to_bytes at h
  split_ifs at h with h1
  · injection h with h
    omega
  · split at h
    · injection h with h
      omega
    · rename_i numStr unitStr hm
      split at h
      · rename_i num hf
        injection h with h
        subst h
        exact memUnitBytes_nonneg _ _ (pyFloat_fin_nonneg (memRegexMatch_inv hm) hf)
      · exact absurd h (by simp)
      · exact absurd h (by simp)

theorem append_str_ne_empty (s t : String) (ht : t.toList ≠ []) : s ++ t ≠ "" := by
  intro h
  have h2 := congrArg String.toList h
  rw [toList_append] at h2
  exact ht (List.append_eq_nil.mp h2).2

/-- C8: `toGiB` returns the empty string exactly when `toBytes` returns 0, and
otherwise formats the byte count over `2^30` to two decimals with suffix `Gi`;
`toMiB` follows the same empty-string rule with `2^20`, zero decimals and
suffix `Mi`.  (When `toBytes` raises, both sides of each equivalence fail.) -/
theorem c8_empty_iff_zero (q : String) :
    ((convert_memory_to_gib q = some "") ↔ (convert_memory_to_bytes q = some 0)) ∧
    (∀ b : Int, convert_memory_to_bytes q = some b → b ≠ 0 →
      convert_memory_to_gib q = some (fmt2f ⟨b, 1024 * 1024 * 1024⟩ ++ "Gi")) ∧
    ((convert_memory_to_mib q = some "") ↔ (convert_memory_to_bytes q = some 0)) ∧
    (∀ b : Int, convert_memory_to_bytes q = some b → b ≠ 0 →
      convert_memory_to_mib q = some (fmt0f ⟨b, 1024 * 1024⟩ ++ "Mi")) := by
  have hgib : convert_memory_to_gib q =
      (convert_memory_to_bytes q).bind
        (fun b => if b ≤ 0 then some "" else some (fmt2f ⟨b, 1024 * 1024 * 1024⟩ ++ "Gi")) := rfl
  have hmib : convert_memory_to_mib q =
      (convert_memory_to_bytes q).bind
        (fun b => if b ≤ 0 then some "" else some (fmt0f ⟨b, 1024 * 1024⟩ ++ "Mi")) := rfl
  cases hcb : convert_memory_to_bytes q with
  | none =>
    rw [hgib, hmib, hcb]
    simp only [Option.none_bind]
    refine ⟨by simp, fun b hb => absurd hb (by simp), by simp,
      fun b hb => absurd hb (by simp)⟩
  | some b =>
    have hb0 : 0 ≤ b := toBytes_nonneg hcb
    rw [hgib, hmib, hcb]
    simp only [Option.some_bind]
    by_cases hle : b ≤ 0
    · have hbz : b = 0 := le_antisymm hle hb0
      subst hbz
      simp only [le_refl, if_true]
      refine ⟨by simp, fun b' hb' hne => ?_, by simp, fun b' hb' hne => ?_⟩ <;>
        (injection hb' with hb'; exact absurd hb'.symm hne)
    · rw [if_neg hle, if_neg hle]
      have hbne : b ≠ 0 := by omega
      refine ⟨⟨fun h => ?_, fun h => ?_⟩, fun b' hb' _ => ?_, ⟨fun h => ?_, fun h => ?_⟩,
        fun b' hb' _ => ?_⟩
      · injection h with h
        exact absurd h (append_str_ne_empty _ _ (by decide))
      · injection h with h
        exact absurd h hbne
      · injection hb' with hb'
        subst hb'
        rfl
      · injection h with h
        exact absurd h (append_str_ne_empty _ _ (by decide))
      · injection h with h
        exact absurd h hbne
      · injection hb' with hb'
        subst hb'
        rfl

/-- Witness for C8 at `"1Gi"`, whose byte count is `2^30`. -/
theorem c8_witness :
    convert_memory_to_gib "1Gi" = some (fmt2f ⟨1073741824, 1024 * 1024 * 1024⟩ ++ "Gi") :=
  (c8_empty_iff_zero "1Gi").2.1 1073741824 (by decide) (by decide)

/-- Evaluation of `convert_memory_to_bytes` on a printed number followed by a
regex-accepted unit group. -/
theorem convert_print_unit (np us : List Char) (f : Frac) (k : Int) (hne : np ≠ [])
    (hnp : ∀ c ∈ np, isNumDotChar c = true)
    (hus : ∀ c ∈ us.take 1, isNumDotChar c = false)
    (hu : unitOk us = true)
    (hf : pyFloat (String.mk np) = some (.fin f))
    (hmu : memUnitBytes f (lowerStr (String.mk us)) = k) :
    convert_memory_to_bytes (String.mk (np ++ us)) = some k := by
  rw [convert_print np us hne hnp hus hu hf, hmu]

/-- C3 (amended): for every numeric value accepted by `float` and every unit
suffix written exactly as the regex demands (uppercase base letter, lowercase
`i`, uppercase `B`), `toBytes` multiplies by the binary multiplier of the
unit's family and truncates; an absent suffix, and any suffix the regex
accepts whose lowercase form is not in the recognised lists (the
`P`/`E`/`Z`/`Y` families and the `B`-terminated forms), yield the bare numeric
value.  (Other spellings — in particular lowercase units — fail the regex and
yield 0, as the counterexample shows.) -/
theorem c3_amended_exact_case (np : List Char) (f : Frac) (hne : np ≠ [])
    (hnp : ∀ c ∈ np, isNumDotChar c = true)
    (hf : pyFloat (String.mk np) = some (.fin f)) :
    (convert_memory_to_bytes (String.mk np ++ "Ki") = some (truncF (f.mulNat 1024)) ∧
      convert_memory_to_bytes (String.mk np ++ "K") = some (truncF (f.mulNat 1024)) ∧
      convert_memory_to_bytes (String.mk np ++ "KiB") = some (truncF (f.mulNat 1024))) ∧
    (convert_memory_to_bytes (String.mk np ++ "Mi") = some (truncF (f.mulNat (1024 * 1024))) ∧
      convert_memory_to_bytes (String.mk np ++ "M") = some (truncF (f.mulNat (1024 * 1024))) ∧
      convert_memory_to_bytes (String.mk np ++ "MiB") =
        some (truncF (f.mulNat (1024 * 1024)))) ∧
    (convert_memory_to_bytes (String.mk np ++ "Gi") =
        some (truncF (f.mulNat (1024 * 1024 * 1024))) ∧
      convert_memory_to_bytes (String.mk np ++ "G") =
        some (truncF (f.mulNat (1024 * 1024 * 1024))) ∧
      convert_memory_to_bytes (String.mk np ++ "GiB") =
        some (truncF (f.mulNat (1024 * 1024 * 1024)))) ∧
    (convert_memory_to_bytes (String.mk np ++ "Ti") =
        some (truncF (f.mulNat (1024 * 1024 * 1024 * 1024))) ∧
      convert_memory_to_bytes (String.mk np ++ "T") =
        some (truncF (f.mulNat (1024 * 1024 * 1024 * 1024))) ∧
      convert_memory_to_bytes (String.mk np ++ "TiB") =
        some (truncF (f.mulNat (1024 * 1024 * 1024 * 1024)))) ∧
    convert_memory_to_bytes (String.mk np) = some (truncF f) ∧
    convert_memory_to_bytes (String.mk np ++ "KB") = some (truncF f) ∧
    convert_memory_to_bytes (String.mk np ++ "MB") = some (truncF f) ∧
    convert_memory_to_bytes (String.mk np ++ "GB") = some (truncF f) ∧
    convert_memory_to_bytes (String.mk np ++ "TB") = some (truncF f) ∧
    convert_memory_to_bytes (String.mk np ++ "P") = some (truncF f) ∧
    convert_memory_to_bytes (String.mk np ++ "Pi") = some (truncF f) ∧
    convert_memory_to_bytes (String.mk np ++ "PiB") = some (truncF f) ∧
    convert_memory_to_bytes (String.mk np ++ "PB") = some (truncF f) ∧
    convert_memory_to_bytes (String.mk np ++ "E") = some (truncF f) ∧
    convert_memory_to_bytes (String.mk np ++ "Ei") = some (truncF f) ∧
    convert_memory_to_bytes (String.mk np ++ "EiB") = some (truncF f) ∧
    convert_memory_to_bytes (String.mk np ++ "EB") = some (truncF f) ∧
    convert_memory_to_bytes (String.mk np ++ "Z") = some (truncF f) ∧
    convert_memory_to_bytes (String.mk np ++ "Zi") = some (truncF f) ∧
    convert_memory_to_bytes (String.mk np ++ "ZiB") = some (truncF f) ∧
    convert_memory_to_bytes (String.mk np ++ "ZB") = some (truncF f) ∧
    convert_memory_to_bytes (String.mk np ++ "Y") = some (truncF f) ∧
    convert_memory_to_bytes (String.mk np ++ "Yi") = some (truncF f) ∧
    convert_memory_to_bytes (String.mk np ++ "YiB") = some (truncF f) ∧
    convert_memory_to_bytes (String.mk np ++ "YB") = some (truncF f) := by
  have noU : convert_memory_to_bytes (String.mk np) = some (truncF f) := by
    have h := convert_print_unit np [] f (truncF f) hne hnp (by decide) (by decide) hf rfl
    rwa [List.append_nil] at h
  refine ⟨⟨?_, ?_, ?_⟩, ⟨?_, ?_, ?_⟩, ⟨?_, ?_, ?_⟩, ⟨?_, ?_, ?_⟩, noU, ?_, ?_, ?_, ?_, ?_,
    ?_, ?_, ?_, ?_, ?_, ?_, ?_, ?_, ?_, ?_, ?_, ?_, ?_, ?_, ?_⟩
  · exact convert_print_unit np ['K', 'i'] f _ hne hnp (by decide) (by decide) hf rfl
  · exact convert_print_unit np ['K'] f _ hne hnp (by decide) (by decide) hf rfl
  · exact convert_print_unit np ['K', 'i', 'B'] f _ hne hnp (by decide) (by decide) hf rfl
  · exact convert_print_unit np ['M', 'i'] f _ hne hnp (by decide) (by decide) hf rfl
  · exact convert_print_unit np ['M'] f _ hne hnp (by decide) (by decide) hf rfl
  · exact convert_print_unit np ['M', 'i', 'B'] f _ hne hnp (by decide) (by decide) hf rfl
  · exact convert_print_unit np ['G', 'i'] f _ hne hnp (by decide) (by decide) hf rfl
  · exact convert_print_unit np ['G'] f _ hne hnp (by decide) (by decide) hf rfl
  · exact convert_print_unit np ['G', 'i', 'B'] f _ hne hnp (by decide) (by decide) hf rfl
  · exact convert_print_unit np ['T', 'i'] f _ hne hnp (by decide) (by decide) hf rfl
  · exact convert_print_unit np ['T'] f _ hne hnp (by decide) (by decide) hf rfl
  · exact convert_print_unit np ['T', 'i', 'B'] f _ hne hnp (by decide) (by decide) hf rfl
  · exact convert_print_unit np ['K', 'B'] f _ hne hnp (by decide) (by decide) hf rfl
  · exact convert_print_unit np ['M', 'B'] f _ hne hnp (by decide) (by decide) hf rfl
  · exact convert_print_unit np ['G', 'B'] f _ hne hnp (by decide) (by decide) hf rfl
  · exact convert_print_unit np ['T', 'B'] f _ hne hnp (by decide) (by decide) hf rfl
  · exact convert_print_unit np ['P'] f _ hne hnp (by decide) (by decide) hf rfl
  · exact convert_print_unit np ['P', 'i'] f _ hne hnp (by decide) (by decide) hf rfl
  · exact convert_print_unit np ['P', 'i', 'B'] f _ hne hnp (by decide) (by decide) hf rfl
  · exact convert_print_unit np ['P', 'B'] f _ hne hnp (by decide) (by decide) hf rfl
  · exact convert_print_unit np ['E'] f _ hne hnp (by decide) (by decide) hf rfl
  · exact convert_print_unit np ['E', 'i'] f _ hne hnp (by decide) (by decide) hf rfl
  · exact convert_print_unit np ['E', 'i', 'B'] f _ hne hnp (by decide) (by decide) hf rfl
  · exact convert_print_unit np ['E', 'B'] f _ hne hnp (by decide) (by decide) hf rfl
  · exact convert_print_unit np ['Z'] f _ hne hnp (by decide) (by decide) hf rfl
  · exact convert_print_unit np ['Z', 'i'] f _ hne hnp (by decide) (by decide) hf rfl
  · exact convert_print_unit np ['Z', 'i', 'B'] f _ hne hnp (by decide) (by decide) hf rfl
  · exact convert_print_unit np ['Z', 'B'] f _ hne hnp (by decide) (by decide) hf rfl
  · exact convert_print_unit np ['Y'] f _ hne hnp (by decide) (by decide) hf rfl
  · exact convert_print_unit np ['Y', 'i'] f _ hne hnp (by decide) (by decide) hf rfl
  · exact convert_print_unit np ['Y', 'i', 'B'] f _ hne hnp (by decide) (by decide) hf rfl
  · exact convert_print_unit np ['Y', 'B'] f _ hne hnp (by decide) (by decide) hf rfl

/-- Witness for the amended C3 at the numeric string `"1.5"` (value 15/10). -/
theorem c3_amended_witness :
    ((['1', '.', '5'] : List Char) ≠ [] ∧
      (∀ c ∈ (['1', '.', '5'] : List Char), isNumDotChar c = true) ∧
      pyFloat (String.mk ['1', '.', '5']) = some (.fin ⟨15, 10⟩)) ∧
    convert_memory_to_bytes (String.mk ['1', '.', '5'] ++ "Ki") = some 1536 := by
  refine ⟨⟨by decide, by decide, by decide⟩, ?_⟩
  rw [(c3_amended_exact_case ['1', '.', '5'] ⟨15, 10⟩ (by decide) (by decide) (by decide)).1.1]
  decide

/-! ### Round trips (C5) -/

/-- C5 (counterexample): at `N = 2^27` bytes the GiB display rounds `0.125` to
`"0.12Gi"` (round half to even), and re-parsing truncates to `128849018`
bytes; the error of `5368710` bytes exceeds half of `0.01 Gi`
(`2^30/200 = 5368709.12`), refuting the claimed half-granularity bound. -/
theorem c5_gib_half_granularity_fails :
    natDecStr 134217728 = "134217728" ∧
    convert_memory_to_gib "134217728" = some "0.12Gi" ∧
    convert_memory_to_bytes "0.12Gi" = some 128849018 ∧
    (134217728 - 128849018 : Int).natAbs = 5368710 ∧
    1073741824 < 200 * 5368710 := by decide

theorem memUnitBytes_empty (f : Frac) : memUnitBytes f (lowerStr (String.mk [])) = truncF f :=
  rfl

theorem toBytes_natDecStr (N : Nat) : convert_memory_to_bytes (natDecStr N) = some N := by
  have hmu : memUnitBytes ⟨(N : Int), 1⟩ (lowerStr (String.mk [])) = (N : Int) := by
    rw [memUnitBytes_empty, truncF_int]
  have h := convert_print_unit (natDecChars N) [] ⟨(N : Int), 1⟩ N (natDecChars_ne_nil N)
    (fun c hc =>
      (numDot_props (mem_numDotSet_of_mem_decDigits (natDecChars_mem _ c hc))).2.2.2.2.1)
    (by decide) (by decide) (pyFloat_natDecChars N) hmu
  rwa [List.append_nil] at h

theorem decimalChars_numDot (a d b : Nat) :
    ∀ c ∈ natDecChars a ++ '.' :: padDigits d b, isNumDotChar c = true := by
  intro c hc
  rcases List.mem_append.mp hc with hc | hc
  · exact (numDot_props (mem_numDotSet_of_mem_decDigits (natDecChars_mem _ c hc))).2.2.2.2.1
  · rcases List.mem_cons.mp hc with rfl | hc
    · decide
    · exact (numDot_props (mem_numDotSet_of_mem_decDigits (padDigits_mem d b c hc))).2.2.2.2.1

theorem fmt2f_nonneg_eq (f : Frac) (h : 0 ≤ rheF (f.mulNat 100)) :
    fmt2f f = String.mk (natDecChars ((rheF (f.mulNat 100)).toNat / 100) ++ '.' ::
      padDigits 2 ((rheF (f.mulNat 100)).toNat % 100)) := by
  simp only [fmt2f]
  rw [if_neg (by omega)]

theorem gib_reparse (q r : Nat) (hr : r < 10 ^ 2) :
    convert_memory_to_bytes
        (String.mk ((natDecChars q ++ '.' :: padDigits 2 r) ++ ['G', 'i'])) =
      some (truncF (Frac.mulNat ⟨(q : Int) * 10 ^ 2 + (r : Int), 10 ^ 2⟩
        (1024 * 1024 * 1024))) := by
  have hchars : natDecChars q ++ '.' :: padDigits 2 r ≠ [] := by
    intro hc
    exact natDecChars_ne_nil q (List.append_eq_nil.mp hc).1
  exact convert_print_unit _ ['G', 'i'] _ _ hchars (decimalChars_numDot q 2 r) (by decide)
    (by decide) (pyFloat_decimal q 2 r hr) rfl

theorem gib_bound (N : Nat) (k M : Int) (hk0 : 0 ≤ k)
    (hM : M = truncF (Frac.mulNat ⟨((k.toNat / 100 : Nat) : Int) * 10 ^ 2 +
      ((k.toNat % 100 : Nat) : Int), 10 ^ 2⟩ (1024 * 1024 * 1024)))
    (hrb : |(k : ℚ) - (Frac.mulNat ⟨(N : Int), 1024 * 1024 * 1024⟩ 100).val| ≤ 1 / 2) :
    (M - (N : Int)).natAbs ≤ 5368710 := by
  have hf2n : ((k.toNat / 100 : Nat) : Int) * 10 ^ 2 + ((k.toNat % 100 : Nat) : Int) = k := by
    have h1 := Nat.div_add_mod k.toNat 100
    have h2 : ((k.toNat : Nat) : Int) = k := Int.toNat_of_nonneg hk0
    push_cast
    omega
  rw [hf2n] at hM
  have hMfloor : M = ⌊(Frac.mulNat ⟨k, 10 ^ 2⟩ (1024 * 1024 * 1024)).val⌋ := by
    rw [hM]
    exact truncF_eq_floor _ (by show (0 : Int) ≤ k * ((1024 * 1024 * 1024 : Nat) : Int); positivity)
  have hvalx : (Frac.mulNat ⟨k, 10 ^ 2⟩ (1024 * 1024 * 1024)).val =
      (k : ℚ) * 1073741824 / 100 := by
    show ((k * ((1024 * 1024 * 1024 : Nat) : Int) : Int) : ℚ) / (((10 : Nat) ^ 2 : Nat) : ℚ) = _
    push_cast
    norm_num
  rw [hvalx] at hMfloor
  have hx1 : ((M : Int) : ℚ) ≤ (k : ℚ) * 1073741824 / 100 := by
    rw [hMfloor]
    exact Int.floor_le _
  have hx2 : (k : ℚ) * 1073741824 / 100 < ((M : Int) : ℚ) + 1 := by
    rw [hMfloor]
    exact Int.lt_floor_add_one _
  have hval2 : (Frac.mulNat ⟨(N : Int), 1024 * 1024 * 1024⟩ 100).val =
      (N : ℚ) * 100 / 1073741824 := by
    show (((N : Int) * ((100 : Nat) : Int) : Int) : ℚ) /
      (((1024 * 1024 * 1024 : Nat) : Nat) : ℚ) = _
    push_cast
    norm_num
  rw [hval2, abs_le] at hrb
  obtain ⟨hrb1, hrb2⟩ := hrb
  have hi1 : M - (N : Int) < 5368710 := by
    have hq : ((M - (N : Int) : Int) : ℚ) < 5368710 := by
      push_cast
      linarith
    exact_mod_cast hq
  have hi2 : -(5368711 : Int) < M - (N : Int) := by
    have hq : ((-(5368711 : Int) : Int) : ℚ) < ((M - (N : Int) : Int) : ℚ) := by
      push_cast
      linarith
    exact_mod_cast hq
  omega

theorem gib_roundtrip (N : Nat) :
    ∃ s M, convert_memory_to_gib (natDecStr N) = some s ∧
      convert_memory_to_bytes s = some M ∧ (M - (N : Int)).natAbs ≤ 5368710 := by
  by_cases hN : N = 0
  · subst hN
    exact ⟨"", 0, by decide, by decide, by decide⟩
  · have hNpos : 0 < N := Nat.pos_of_ne_zero hN
    have hgib : convert_memory_to_gib (natDecStr N) =
        some (fmt2f ⟨(N : Int), 1024 * 1024 * 1024⟩ ++ "Gi") := by
      have hdo : convert_memory_to_gib (natDecStr N) =
          (convert_memory_to_bytes (natDecStr N)).bind
            (fun b => if b ≤ 0 then some ""
              else some (fmt2f ⟨b, 1024 * 1024 * 1024⟩ ++ "Gi")) := rfl
      rw [hdo, toBytes_natDecStr N]
      show (if (N : Int) ≤ 0 then some ""
        else some (fmt2f ⟨(N : Int), 1024 * 1024 * 1024⟩ ++ "Gi")) =
        some (fmt2f ⟨(N : Int), 1024 * 1024 * 1024⟩ ++ "Gi")
      rw [if_neg (by omega)]
    set k := rheF (Frac.mulNat ⟨(N : Int), 1024 * 1024 * 1024⟩ 100) with hk
    have hk0 : 0 ≤ k :=
      rheF_nonneg _ (by show (0 : Int) ≤ (N : Int) * ((100 : Nat) : Int); positivity)
    have hfmt : fmt2f ⟨(N : Int), 1024 * 1024 * 1024⟩ =
        String.mk (natDecChars (k.toNat / 100) ++ '.' :: padDigits 2 (k.toNat % 100)) :=
      fmt2f_nonneg_eq ⟨(N : Int), 1024 * 1024 * 1024⟩ (by rw [← hk]; exact hk0)
    have hb2 : k.toNat % 100 < 10 ^ 2 := by
      have := Nat.mod_lt k.toNat (show 0 < 100 by norm_num)
      omega
    have hre := gib_reparse (k.toNat / 100) (k.toNat % 100) hb2
    refine ⟨fmt2f ⟨(N : Int), 1024 * 1024 * 1024⟩ ++ "Gi",
      truncF (Frac.mulNat ⟨((k.toNat / 100 : Nat) : Int) * 10 ^ 2 +
        ((k.toNat % 100 : Nat) : Int), 10 ^ 2⟩ (1024 * 1024 * 1024)), hgib, ?_, ?_⟩
    · rw [hfmt, show String.mk (natDecChars (k.toNat / 100) ++ '.' ::
          padDigits 2 (k.toNat % 100)) ++ "Gi" =
          String.mk ((natDecChars (k.toNat / 100) ++ '.' :: padDigits 2 (k.toNat % 100)) ++
            ['G', 'i']) from rfl]
      exact hre
    · exact gib_bound N k _ hk0 rfl (rheF_bound _ (by norm_num [Frac.mulNat]))

theorem fmt0f_nonneg_eq (f : Frac) (h : 0 ≤ rheF f) :
    fmt0f f = natDecStr (rheF f).toNat := by
  unfold fmt0f intDecStr
  rw [if_neg (by omega)]

theorem mib_reparse (q : Nat) :
    convert_memory_to_bytes (String.mk (natDecChars q ++ ['M', 'i'])) =
      some ((q : Int) * ((1024 * 1024 : Nat) : Int)) := by
  refine convert_print_unit (natDecChars q) ['M', 'i'] ⟨(q : Int), 1⟩ _ (natDecChars_ne_nil q)
    (fun c hc =>
      (numDot_props (mem_numDotSet_of_mem_decDigits (natDecChars_mem _ c hc))).2.2.2.2.1)
    (by decide) (by decide) (pyFloat_natDecChars q) ?_
  show truncF ⟨(q : Int) * ((1024 * 1024 : Nat) : Int), 1⟩ = _
  rw [truncF_int]

theorem mib_roundtrip (N : Nat) :
    ∃ s M, convert_memory_to_mib (natDecStr N) = some s ∧
      convert_memory_to_bytes s = some M ∧ (M - (N : Int)).natAbs ≤ 524288 := by
  by_cases hN : N = 0
  · subst hN
    exact ⟨"", 0, by decide, by decide, by decide⟩
  · have hNpos : 0 < N := Nat.pos_of_ne_zero hN
    have hmib : convert_memory_to_mib (natDecStr N) =
        some (fmt0f ⟨(N : Int), 1024 * 1024⟩ ++ "Mi") := by
      have hdo : convert_memory_to_mib (natDecStr N) =
          (convert_memory_to_bytes (natDecStr N)).bind
            (fun b => if b ≤ 0 then some ""
              else some (fmt0f ⟨b, 1024 * 1024⟩ ++ "Mi")) := rfl
      rw [hdo, toBytes_natDecStr N]
      show (if (N : Int) ≤ 0 then some ""
        else some (fmt0f ⟨(N : Int), 1024 * 1024⟩ ++ "Mi")) =
        some (fmt0f ⟨(N : Int), 1024 * 1024⟩ ++ "Mi")
      rw [if_neg (by omega)]
    set k := rheF ⟨(N : Int), 1024 * 1024⟩ with hk
    have hk0 : 0 ≤ k := rheF_nonneg _ (by show (0 : Int) ≤ (N : Int); positivity)
    have hfmt : fmt0f ⟨(N : Int), 1024 * 1024⟩ = natDecStr k.toNat := by
      rw [fmt0f_nonneg_eq _ (by rw [← hk]; exact hk0), ← hk]
    refine ⟨fmt0f ⟨(N : Int), 1024 * 1024⟩ ++ "Mi",
      (k.toNat : Int) * ((1024 * 1024 : Nat) : Int), hmib, ?_, ?_⟩
    · rw [hfmt, show natDecStr k.toNat ++ "Mi" =
        String.mk (natDecChars k.toNat ++ ['M', 'i']) from rfl]
      exact mib_reparse k.toNat
    · rw [Int.toNat_of_nonneg hk0]
      have hrb := rheF_bound ⟨(N : Int), 1024 * 1024⟩ (by norm_num)
      rw [← hk, abs_le] at hrb
      have hval : (⟨(N : Int), 1024 * 1024⟩ : Frac).val = (N : ℚ) / 1048576 := by
        show (((N : Int) : ℚ)) / ((1024 * 1024 : Nat) : ℚ) = _
        push_cast
        norm_num
      rw [hval] at hrb
      obtain ⟨hrb1, hrb2⟩ := hrb
      have hi1 : k * ((1024 * 1024 : Nat) : Int) - (N : Int) ≤ 524288 := by
        have hq : ((k * ((1024 * 1024 : Nat) : Int) - (N : Int) : Int) : ℚ) ≤ 524288 := by
          push_cast
          linarith
        exact_mod_cast hq
      have hi2 : -(524288 : Int) ≤ k * ((1024 * 1024 : Nat) : Int) - (N : Int) := by
        have hq : (-(524288 : Int) : ℚ) ≤ ((k * ((1024 * 1024 : Nat) : Int) - (N : Int) : Int) : ℚ) := by
          push_cast
          linarith
        exact_mod_cast hq
      omega

theorem cores_roundtrip (n : Nat) :
    format_cpu_cores (natDecStr n ++ "m") = some (fmt2f ⟨(n : Int), 1000⟩ ++ "cores") ∧
    |(rheF (Frac.mulNat ⟨(n : Int), 1000⟩ 100) : ℚ) * 10 - (n : ℚ)| ≤ 5 := by
  constructor
  · have hshape : natDecStr n ++ "m" = String.mk (natDecChars n ++ ['m']) := rfl
    unfold format_cpu_cores
    rw [hshape, mk_beq_empty (by simp)]
    simp only [Bool.false_eq_true, if_false]
    have hlast : lastIs (String.mk (natDecChars n ++ ['m'])) 'm' = true := by
      unfold lastIs
      rw [mk_toList, List.getLast?_concat]
      simp
    rw [hlast]
    simp only [if_true]
    have hdrop : dropLastStr (String.mk (natDecChars n ++ ['m'])) =
        String.mk (natDecChars n) := by
      unfold dropLastStr
      rw [mk_toList, List.dropLast_concat]
    have hp : pyFloat (String.mk (natDecChars n)) = some (.fin ⟨(n : Int), 1⟩) :=
      pyFloat_natDecChars n
    rw [hdrop, hp]
    show some (fmt2f (Frac.divNat ⟨(n : Int), 1⟩ 1000) ++ "cores") = _
    rw [show Frac.divNat ⟨(n : Int), 1⟩ 1000 = ⟨(n : Int), 1000⟩ by simp [Frac.divNat]]
  · have hrb := rheF_bound (Frac.mulNat ⟨(n : Int), 1000⟩ 100) (by norm_num [Frac.mulNat])
    have hval : (Frac.mulNat ⟨(n : Int), 1000⟩ 100).val = (n : ℚ) * 100 / 1000 := by
      show (((n : Int) * ((100 : Nat) : Int) : Int) : ℚ) / ((1000 : Nat) : ℚ) = _
      push_cast
      norm_num
    rw [hval, abs_le] at hrb
    rw [abs_le]
    obtain ⟨hrb1, hrb2⟩ := hrb
    constructor <;> linarith

theorem m_roundtrip (a d b : Nat) (hb : b < 10 ^ d) :
    format_cpu_m (String.mk (natDecChars a ++ '.' :: padDigits d b)) =
      some (intDecStr (rheF (Frac.mulNat ⟨(a : Int) * 10 ^ d + (b : Int), 10 ^ d⟩ 1000)) ++
        "m") ∧
    |(rheF (Frac.mulNat ⟨(a : Int) * 10 ^ d + (b : Int), 10 ^ d⟩ 1000) : ℚ) -
      (Frac.mulNat ⟨(a : Int) * 10 ^ d + (b : Int), 10 ^ d⟩ 1000).val| ≤ 1 / 2 := by
  constructor
  · unfold format_cpu_m
    rw [mk_beq_empty (by
      intro hc
      exact natDecChars_ne_nil a (List.append_eq_nil.mp hc).1)]
    simp only [Bool.false_eq_true, if_false]
    have hlast : lastIs (String.mk (natDecChars a ++ '.' :: padDigits d b)) 'm' = false := by
      unfold lastIs
      rw [mk_toList]
      cases hgl : (natDecChars a ++ '.' :: padDigits d b).getLast? with
      | none => rfl
      | some c =>
        have hcm : c ∈ numDotSet := by
          have hmem := List.mem_of_getLast?_eq_some hgl
          rcases List.mem_append.mp hmem with hx | hx
          · exact mem_numDotSet_of_mem_decDigits (natDecChars_mem _ c hx)
          · rcases List.mem_cons.mp hx with rfl | hx
            · exact List.mem_cons_self _ _
            · exact mem_numDotSet_of_mem_decDigits (padDigits_mem d b c hx)
        simp [(numDot_props hcm).2.2.2.2.2.2.2.2.2.2]
    rw [hlast]
    simp only [Bool.false_eq_true, if_false]
    rw [pyFloat_decimal a d b hb]
  · exact rheF_bound _ (by show 0 < 10 ^ d; positivity)

/-- C5 (amended): formatting a byte count to the GiB display and re-parsing
recovers it within half of `0.01 Gi` plus one byte of truncation (`5368710`
bytes in total); the MiB round trip recovers it within half of `1 Mi`; the
cores display of a millicore count differs from it by at most `5` millicores
(half of the two-decimal granularity); and `cpuToMillicores` of a decimal core
count rounds to the nearest millicore, within half a millicore. -/
theorem c5_amended_roundtrip (N n a b d : Nat) (hb : b < 10 ^ d) :
    (∃ s M, convert_memory_to_gib (natDecStr N) = some s ∧
      convert_memory_to_bytes s = some M ∧ (M - (N : Int)).natAbs ≤ 5368710) ∧
    (∃ s M, convert_memory_to_mib (natDecStr N) = some s ∧
      convert_memory_to_bytes s = some M ∧ (M - (N : Int)).natAbs ≤ 524288) ∧
    (format_cpu_cores (natDecStr n ++ "m") = some (fmt2f ⟨(n : Int), 1000⟩ ++ "cores") ∧
      |(rheF (Frac.mulNat ⟨(n : Int), 1000⟩ 100) : ℚ) * 10 - (n : ℚ)| ≤ 5) ∧
    (format_cpu_m (String.mk (natDecChars a ++ '.' :: padDigits d b)) =
        some (intDecStr (rheF (Frac.mulNat ⟨(a : Int) * 10 ^ d + (b : Int), 10 ^ d⟩ 1000)) ++
          "m") ∧
      |(rheF (Frac.mulNat ⟨(a : Int) * 10 ^ d + (b : Int), 10 ^ d⟩ 1000) : ℚ) -
        (Frac.mulNat ⟨(a : Int) * 10 ^ d + (b : Int), 10 ^ d⟩ 1000).val| ≤ 1 / 2) :=
  ⟨gib_roundtrip N, mib_roundtrip N, cores_roundtrip n, m_roundtrip a d b hb⟩

/-- Witness for the amended C5 at `N = 3` bytes, `n = 500` millicores and the
core-count string `"0.005"`. -/
theorem c5_amended_witness :
    (5 : Nat) < 10 ^ 3 ∧
    ((∃ s M, convert_memory_to_gib (natDecStr 3) = some s ∧
      convert_memory_to_bytes s = some M ∧ (M - (3 : Int)).natAbs ≤ 5368710) ∧
    (∃ s M, convert_memory_to_mib (natDecStr 3) = some s ∧
      convert_memory_to_bytes s = some M ∧ (M - (3 : Int)).natAbs ≤ 524288) ∧
    (format_cpu_cores (natDecStr 500 ++ "m") = some (fmt2f ⟨(500 : Int), 1000⟩ ++ "cores") ∧
      |(rheF (Frac.mulNat ⟨(500 : Int), 1000⟩ 100) : ℚ) * 10 - (500 : ℚ)| ≤ 5) ∧
    (format_cpu_m (String.mk (natDecChars 0 ++ '.' :: padDigits 3 5)) =
        some (intDecStr (rheF (Frac.mulNat ⟨(0 : Int) * 10 ^ 3 + (5 : Int), 10 ^ 3⟩ 1000)) ++
          "m") ∧
      |(rheF (Frac.mulNat ⟨(0 : Int) * 10 ^ 3 + (5 : Int), 10 ^ 3⟩ 1000) : ℚ) -
        (Frac.mulNat ⟨(0 : Int) * 10 ^ 3 + (5 : Int), 10 ^ 3⟩ 1000).val| ≤ 1 / 2)) :=
  ⟨by decide, c5_amended_roundtrip 3 500 0 5 3 (by decide)⟩

end ResourceGather
